import Mathlib

/-!
Verification model of the Markdown → Confluence transcoder and the
page-hierarchy synchronizer of `src/obsidian-confluence-sync/main.ts`.
Each JavaScript regex rewrite is embedded as an explicit character scanner
(left-to-right, non-overlapping global replacement, lazy quantifiers as
first-occurrence searches); the stateful loops of the synchronizer become
explicit state passing over a `Remote` record.
-/

deriving instance DecidableEq for Except

set_option maxRecDepth 100000

namespace CSync

/-- JS `\s` whitespace (restricted to the ASCII whitespace the plugin meets). -/
def isWs (c : Char) : Bool :=
  c = ' ' || c = '\t' || c = '\n' || c = '\r'

/-- Drop JS-`trim` whitespace from both ends. -/
def trimL (cs : List Char) : List Char :=
  ((cs.dropWhile isWs).reverse.dropWhile isWs).reverse

/-- Split a character list on newline characters; keeps empty segments, like
`String.prototype.split('\n')`. -/
def splitNl : List Char → List (List Char)
  | [] => [[]]
  | c :: cs =>
    if c = '\n' then [] :: splitNl cs
    else
      match splitNl cs with
      | [] => [[c]]
      | l :: ls => (c :: l) :: ls

/-- Join lines with newline characters (inverse of `splitNl`). -/
def joinNl : List (List Char) → List Char
  | [] => []
  | [l] => l
  | l :: ls => l ++ '\n' :: joinNl ls

/-- Apply a per-line rewrite, like a `gm`-anchored regex replacement. -/
def mapLines (f : List Char → List Char) (cs : List Char) : List Char :=
  joinNl ((splitNl cs).map f)

/-- Generic left-to-right global rewrite: at each position try the matcher;
on a match emit the replacement and continue after the consumed text,
otherwise keep one character and move on.  Fuel bounds the recursion; the
callers always supply `length + 1`. -/
def scanRw (m : List Char → Option (List Char × List Char)) :
    Nat → List Char → List Char
  | 0, cs => cs
  | _ + 1, [] => []
  | fuel + 1, c :: cs =>
    match m (c :: cs) with
    | some (rep, rest) => rep ++ scanRw m fuel rest
    | none => c :: scanRw m fuel cs

/-- First split of `cs` around the first occurrence of `needle`:
`cs = pre ++ needle ++ post`. -/
def findSub (needle : List Char) : Nat → List Char → Option (List Char × List Char)
  | 0, _ => none
  | _ + 1, [] => if needle = [] then some ([], []) else none
  | fuel + 1, c :: cs =>
    if needle.isPrefixOf (c :: cs) then some ([], (c :: cs).drop needle.length)
    else
      match findSub needle fuel cs with
      | some (pre, post) => some (c :: pre, post)
      | none => none

/-- Lazy `(.+?)` up to a closing delimiter: the shortest nonempty run of
non-newline characters followed by `dr`; returns the run and the text after
the delimiter. -/
def lazyTo (dr : List Char) : Nat → List Char → Option (List Char × List Char)
  | 0, _ => none
  | _ + 1, [] => none
  | fuel + 1, c :: cs =>
    if c = '\n' then none
    else if dr.isPrefixOf cs then some ([c], cs.drop dr.length)
    else
      match lazyTo dr fuel cs with
      | some (content, rest) => some (c :: content, rest)
      | none => none

/-- Lazy `(.+?)` variant spanning newlines (`[\s\S]+?`), up to `dr`. -/
def lazyToAny (dr : List Char) : Nat → List Char → Option (List Char × List Char)
  | 0, _ => none
  | _ + 1, [] => none
  | fuel + 1, c :: cs =>
    if dr.isPrefixOf cs then some ([c], cs.drop dr.length)
    else
      match lazyToAny dr fuel cs with
      | some (content, rest) => some (c :: content, rest)
      | none => none

/-- Lazy `(.+?)` with a `(?<!\s)` guard before the single closing character:
the shortest nonempty non-newline run whose last character is not whitespace
and which is followed by `d`. -/
def lazyClose1 (d : Char) : Nat → List Char → Option (List Char × List Char)
  | 0, _ => none
  | _ + 1, [] => none
  | fuel + 1, c :: cs =>
    if c = '\n' then none
    else if (match cs with | d' :: _ => d' = d && !isWs c | [] => false) then
      some ([c], cs.drop 1)
    else
      match lazyClose1 d fuel cs with
      | some (content, rest) => some (c :: content, rest)
      | none => none

/-! ### Transcoder stage matchers (one per regex of `convertMarkdownToConfluence`) -/

/-- Is this character a JS `\w` word character? -/
def isWordChar (c : Char) : Bool := c.isAlpha || c.isDigit || c = '_'

/-- Quote characters removed by `replace(/['"]/g, '')` in the dataview stage. -/
def isQuoteChar (c : Char) : Bool := c.toNat = 39 || c.toNat = 34

/-- Join with single spaces, like `Array.prototype.join(' ')`. -/
def joinSp : List (List Char) → List Char
  | [] => []
  | [t] => t
  | t :: ts => t ++ ' ' :: joinSp ts

/-- Matcher for ```` ```dataviewjs dv.view(..., { tags:[...] ... }) ``` ````
(the dataview tag-query escape hatch). Returns (replacement, rest). -/
def mDataview (cs : List Char) : Option (List Char × List Char) :=
  if ("```dataviewjs".data).isPrefixOf cs then
    let r1 := (cs.drop 13).dropWhile isWs
    if ("dv.view(".data).isPrefixOf r1 then
      let r2 := r1.drop 8
      let arg1 := r2.takeWhile (fun c => c ≠ ',')
      if arg1 ≠ [] ∧ r2.drop arg1.length ≠ [] then
        let r3 := (r2.drop (arg1.length + 1)).dropWhile isWs
        match r3 with
        | '{' :: r4 =>
          let r5 := r4.dropWhile isWs
          if ("tags:".data).isPrefixOf r5 then
            let r6 := (r5.drop 5).dropWhile isWs
            match r6 with
            | '[' :: r7 =>
              let tagsStr := r7.takeWhile (fun c => c ≠ ']')
              if tagsStr ≠ [] ∧ r7.drop tagsStr.length ≠ [] then
                let r8 := r7.drop (tagsStr.length + 1)
                let r9 := r8.takeWhile (fun c => c ≠ '}')
                match r8.drop r9.length with
                | '}' :: r10 =>
                  match (r10.dropWhile isWs) with
                  | ')' :: r11 =>
                    let r12 := r11.dropWhile isWs
                    if ("```".data).isPrefixOf r12 then
                      let tags := ((tagsStr.splitOn ',').map
                          (fun t => (trimL t).filter (fun c => !isQuoteChar c))).filter
                          (fun t => t ≠ [])
                      some (joinSp (tags.map (fun t => '#' :: t)), r12.drop 3)
                    else none
                  | _ => none
                | _ => none
              else none
            | _ => none
          else none
        | _ => none
      else none
    else none
  else none

/-- Matcher for wiki links `[[path]]` / `[[path|alias]]`. -/
def mWikiLink (cs : List Char) : Option (List Char × List Char) :=
  match cs with
  | '[' :: '[' :: r1 =>
    let path := r1.takeWhile (fun c => c ≠ ']' ∧ c ≠ '|')
    if path = [] then none
    else
      let rep := fun (display : List Char) =>
        let pathParts := path.splitOn '/'
        let pageTitle := trimL (pathParts.getLastD [])
        let linkText := if display = [] then pageTitle else trimL display
        ("<ac:link><ri:page ri:content-title=\"".data) ++ pageTitle ++
          ("\" /><ac:plain-text-link-body><![CDATA[".data) ++ linkText ++
          ("]]></ac:plain-text-link-body></ac:link>".data)
      match r1.drop path.length with
      | ']' :: ']' :: rest => some (rep [], rest)
      | '|' :: r2 =>
        let display := r2.takeWhile (fun c => c ≠ ']')
        if display = [] then none
        else
          match r2.drop display.length with
          | ']' :: ']' :: rest => some (rep display, rest)
          | _ => none
      | _ => none
  | _ => none

/-- Matcher for inline icon images `![alt](attachments/...)`, dropped entirely. -/
def mIcon (cs : List Char) : Option (List Char × List Char) :=
  match cs with
  | '!' :: '[' :: r1 =>
    let alt := r1.takeWhile (fun c => c ≠ ']')
    match r1.drop alt.length with
    | ']' :: '(' :: r2 =>
      if ("attachments/".data).isPrefixOf r2 then
        let url := r2.takeWhile (fun c => c ≠ ')')
        if url.length < 13 then none
        else
          match r2.drop url.length with
          | ')' :: rest => some ([], rest)
          | _ => none
      else none
    | _ => none
  | _ => none

/-- Matcher for fenced code blocks ```` ```lang\ncode``` ````. -/
def mCodeBlock (cs : List Char) : Option (List Char × List Char) :=
  if ("```".data).isPrefixOf cs then
    let r1 := cs.drop 3
    let lang := r1.takeWhile isWordChar
    match r1.drop lang.length with
    | '\n' :: r2 =>
      match lazyToAny ("```".data) (r2.length + 1) r2 with
      | some (code, rest) =>
        let language := if lang = [] then "none".data else lang
        some (("<ac:structured-macro ac:name=\"code\"><ac:parameter ac:name=\"language\">".data)
            ++ language ++ ("</ac:parameter><ac:plain-text-body><![CDATA[".data)
            ++ code ++ ("]]></ac:plain-text-body></ac:structured-macro>".data), rest)
      | none => none
    | _ => none
  else none

/-- Matcher for markdown images `![alt](url)`. -/
def mImage (cs : List Char) : Option (List Char × List Char) :=
  match cs with
  | '!' :: '[' :: r1 =>
    let alt := r1.takeWhile (fun c => c ≠ ']')
    match r1.drop alt.length with
    | ']' :: '(' :: r2 =>
      let url := r2.takeWhile (fun c => c ≠ ')')
      if url = [] then none
      else
        match r2.drop url.length with
        | ')' :: rest =>
          some (("<ac:image><ri:url ri:value=\"".data) ++ url ++ ("\" /></ac:image>".data), rest)
        | _ => none
    | _ => none
  | _ => none

/-- Matcher for two-character symmetric delimiters with lazy non-newline
content (used for `**`, `__`, `~~` and the triple-marker variants). -/
def mDelim (d : List Char) (pre post : List Char) (cs : List Char) :
    Option (List Char × List Char) :=
  if d.isPrefixOf cs then
    match lazyTo d ((cs.drop d.length).length + 1) (cs.drop d.length) with
    | some (content, rest) => some (pre ++ content ++ post, rest)
    | none => none
  else none

/-- Matcher for single-marker italics `\*(?!\s)(.+?)(?<!\s)\*` (also `_`). -/
def mItal (d : Char) (cs : List Char) : Option (List Char × List Char) :=
  match cs with
  | c0 :: c1 :: rest =>
    if c0 = d ∧ !isWs c1 then
      match lazyClose1 d ((c1 :: rest).length + 1) (c1 :: rest) with
      | some (content, rest2) => some (("<em>".data) ++ content ++ ("</em>".data), rest2)
      | none => none
    else none
  | _ => none

/-- Matcher for markdown links `[text](url)`, with the regex engine's
backtracking over the `](` split point. -/
def mLinkGo : Nat → List Char → List Char → Option (List Char × List Char)
  | 0, _, _ => none
  | _ + 1, _, [] => none
  | fuel + 1, acc, c :: cs =>
    if c = '\n' then none
    else if c = ']' && (match cs with | '(' :: _ => true | _ => false) && !acc.isEmpty then
      match lazyTo [')'] ((cs.drop 1).length + 1) (cs.drop 1) with
      | some (url, rest) =>
        some (("<a href=\"".data) ++ url ++ ("\">".data) ++ acc ++ ("</a>".data), rest)
      | none => mLinkGo fuel (acc ++ [c]) cs
    else mLinkGo fuel (acc ++ [c]) cs

/-- Matcher for `[text](url)` anchors. -/
def mLink (cs : List Char) : Option (List Char × List Char) :=
  match cs with
  | '[' :: rest => mLinkGo (rest.length + 1) [] rest
  | _ => none

/-- Matcher for inline code spans `` `code` ``. -/
def mInline (cs : List Char) : Option (List Char × List Char) :=
  match cs with
  | '`' :: rest =>
    let content := rest.takeWhile (fun c => c ≠ '`')
    if content = [] then none
    else
      match rest.drop content.length with
      | '`' :: rest2 => some (("<code>".data) ++ content ++ ("</code>".data), rest2)
      | _ => none
  | _ => none

/-- Matcher joining adjacent blockquotes: `</blockquote>\s*<blockquote>` → ``. -/
def mBqJoin (cs : List Char) : Option (List Char × List Char) :=
  if ("</blockquote>".data).isPrefixOf cs then
    let r1 := (cs.drop 13).dropWhile isWs
    if ("<blockquote>".data).isPrefixOf r1 then some ([], r1.drop 12)
    else none
  else none

/-! ### Line-anchored stages -/

/-- One line of `convertHeadings`: `^(#+) (.+)$`. -/
def headingLine (l : List Char) : List Char :=
  let hashes := l.takeWhile (fun c => c = '#')
  if hashes = [] then l
  else
    match l.drop hashes.length with
    | ' ' :: content =>
      if content = [] then l
      else
        let lv := (toString hashes.length).data
        ('<' :: 'h' :: lv) ++ '>' :: content ++ ('<' :: '/' :: 'h' :: lv) ++ ['>']
    | _ => l

/-- One line of `convertTaskLists`: `^- \[([ x])\] (.+)$` (the character class
admits only a space or a lowercase `x`). -/
def taskLine (l : List Char) : List Char :=
  match l with
  | '-' :: ' ' :: '[' :: ck :: ']' :: ' ' :: content =>
    if (ck = ' ' || ck = 'x') && !content.isEmpty then
      let status := if ck.toLower = 'x' then "complete".data else "incomplete".data
      ("<ac:task><ac:task-status>".data) ++ status ++
        ("</ac:task-status><ac:task-body>".data) ++ content ++ ("</ac:task-body></ac:task>".data)
    else l
  | _ => l

/-- One line of `convertHorizontalRules`: `^---+$`. -/
def hrLine (l : List Char) : List Char :=
  if 3 ≤ l.length && l.all (fun c => c = '-') then "<hr/>".data else l

/-- One line of `convertBlockquotes` (first pass): `^> (.+)$`. -/
def bqLine (l : List Char) : List Char :=
  match l with
  | '>' :: ' ' :: content =>
    if content = [] then l
    else ("<blockquote><p>".data) ++ content ++ ("</p></blockquote>".data)
  | _ => l

/-! ### Tables -/

/-- Match one table line `\|.+\|` followed by its `[\r\n]+` run; returns the
matched text (line plus newlines) and the rest. -/
def matchTableLine (cs : List Char) : Option (List Char × List Char) :=
  match cs with
  | '|' :: _ =>
    let line := cs.takeWhile (fun c => c ≠ '\n')
    if 3 ≤ line.length && line.getLastD ' ' = '|' then
      let rest := cs.drop line.length
      let nls := rest.takeWhile (fun c => c = '\n' || c = '\r')
      if nls = [] then none
      else some (line ++ nls, rest.drop nls.length)
    else none
  | _ => none

/-- Match a maximal run `(?:\|.+\|[\r\n]+)+` of table lines. -/
def matchTableRun : Nat → List Char → Option (List Char × List Char)
  | 0, _ => none
  | fuel + 1, cs =>
    match matchTableLine cs with
    | none => none
    | some (seg, rest) =>
      match matchTableRun fuel rest with
      | some (seg2, rest2) => some (seg ++ seg2, rest2)
      | none => some (seg, rest)

/-- Render the cells of one table row (`row.split('|')` with blank cells
dropped), tagging with `th` or `td`. -/
def tableCells (tag : List Char) (row : List Char) : List Char :=
  ((row.splitOn '|').filter (fun cell => trimL cell ≠ [])).foldl
    (fun acc cell => acc ++ '<' :: tag ++ '>' :: trimL cell ++ '<' :: '/' :: tag ++ ['>']) []

/-- Render one matched table run: header row, separator row dropped, body rows. -/
def renderTable (matched : List Char) : List Char :=
  let rows := splitNl (trimL matched)
  let body := (List.range rows.length).foldl
    (fun acc i =>
      if i = 1 then acc
      else
        let tag := if i = 0 then "th".data else "td".data
        acc ++ ("<tr>".data) ++ tableCells tag (rows.getD i []) ++ ("</tr>".data)) []
  ("<table><tbody>".data) ++ body ++ ("</tbody></table>".data)

/-- Scanner for `convertTables`, tracking whether the cursor is at a line
start (the `m` flag of `/^((?:\|.+\|[\r\n]+)+)/gm`). -/
def tablesGo : Nat → Bool → List Char → List Char
  | 0, _, cs => cs
  | _ + 1, _, [] => []
  | fuel + 1, atStart, c :: cs =>
    if atStart then
      match matchTableRun ((c :: cs).length + 1) (c :: cs) with
      | some (matched, rest) => renderTable matched ++ '\n' :: tablesGo fuel true rest
      | none => c :: tablesGo fuel (c = '\n') cs
    else c :: tablesGo fuel (c = '\n') cs

/-! ### Lists (the hand-rolled line walker of `convertLists`) -/

/-- `line.match(/^(\s*)\d+\. (.+)$/)`: returns (indent, content). -/
def olMatchL (l : List Char) : Option (List Char × List Char) :=
  let ind := l.takeWhile isWs
  let r1 := l.drop ind.length
  let ds := r1.takeWhile Char.isDigit
  if ds = [] then none
  else
    match r1.drop ds.length with
    | '.' :: ' ' :: content => if content = [] then none else some (ind, content)
    | _ => none

/-- `line.match(/^(\s*)[*-] (.+)$/)`: returns (indent, content). -/
def ulMatchL (l : List Char) : Option (List Char × List Char) :=
  let ind := l.takeWhile isWs
  match l.drop ind.length with
  | c :: ' ' :: content =>
    if (c = '*' || c = '-') && !content.isEmpty then some (ind, content) else none
  | _ => none

/-- Nested-bullet collection inside an ordered item: consume while
`^(\s+)[*-] (.+)$` matches with indent at least `base`. -/
def nestedCollect (base : Nat) : Nat → List (List Char) →
    List (List Char) × List (List Char)
  | 0, ls => ([], ls)
  | _ + 1, [] => ([], [])
  | fuel + 1, line :: rest =>
    match ulMatchL line with
    | some (ind, content) =>
      if ind ≠ [] ∧ base ≤ ind.length then
        let (items, rest2) := nestedCollect base fuel rest
        ((("<li>".data) ++ content ++ ("</li>".data)) :: items, rest2)
      else ([], line :: rest)
    | none => ([], line :: rest)

/-- A root-level ordered item match (indent empty); returns the content. -/
def rootOl (line : List Char) : Option (List Char) :=
  match olMatchL line with
  | some (ind, content) => if ind = [] then some content else none
  | none => none

/-- A root-level unordered item match (indent empty); returns the content. -/
def rootUl (line : List Char) : Option (List Char) :=
  match ulMatchL line with
  | some (ind, content) => if ind = [] then some content else none
  | none => none

/-- Concatenate item fragments, JS `Array.prototype.join('')`. -/
def catL (ls : List (List Char)) : List Char := ls.foldl (fun a i => a ++ i) []

/-- Continuation/nested lines of one ordered item (the inner `while` of the
ordered branch): stops at a root ordered item or a non-indented nonempty
line; otherwise absorbs nested bullet runs, continuation text, and blanks. -/
def itemExtra : Nat → List Char → List (List Char) → List Char × List (List Char)
  | 0, acc, ls => (acc, ls)
  | _ + 1, acc, [] => (acc, [])
  | fuel + 1, acc, line :: rest =>
    if (rootOl line).isSome then (acc, line :: rest)
    else if trimL line ≠ [] ∧ line.takeWhile isWs = [] then (acc, line :: rest)
    else
      match ulMatchL line with
      | some (ind, _) =>
        if ind ≠ [] then
          let (items, rest2) := nestedCollect ind.length (fuel + 1) (line :: rest)
          let acc2 := if items = [] then acc
            else acc ++ ("<ul>".data) ++ catL items ++ ("</ul>".data)
          itemExtra fuel acc2 rest2
        else if trimL line ≠ [] then itemExtra fuel (acc ++ ' ' :: trimL line) rest
        else itemExtra fuel acc rest
      | none =>
        if trimL line ≠ [] then itemExtra fuel (acc ++ ' ' :: trimL line) rest
        else itemExtra fuel acc rest

/-- Collect consecutive root-level ordered items. -/
def olItems : Nat → List (List Char) → List (List Char) × List (List Char)
  | 0, ls => ([], ls)
  | _ + 1, [] => ([], [])
  | fuel + 1, line :: rest =>
    match rootOl line with
    | some content =>
      let (item, rest2) := itemExtra fuel content rest
      let (more, rest3) := olItems fuel rest2
      ((("<li>".data) ++ item ++ ("</li>".data)) :: more, rest3)
    | none => ([], line :: rest)

/-- Collect consecutive root-level unordered items. -/
def ulItems : Nat → List (List Char) → List (List Char) × List (List Char)
  | 0, ls => ([], ls)
  | _ + 1, [] => ([], [])
  | fuel + 1, line :: rest =>
    match rootUl line with
    | some content =>
      let (more, rest2) := ulItems fuel rest
      ((("<li>".data) ++ content ++ ("</li>".data)) :: more, rest2)
    | none => ([], line :: rest)

/-- The outer line loop of `convertLists`. -/
def listsGo : Nat → List (List Char) → List (List Char)
  | 0, ls => ls
  | _ + 1, [] => []
  | fuel + 1, line :: rest =>
    match rootOl line with
    | some _ =>
      let (items, rest2) := olItems (fuel + 1) (line :: rest)
      let out := listsGo fuel rest2
      if items = [] then out
      else (("<ol>".data) ++ catL items ++ ("</ol>".data)) :: out
    | none =>
      match rootUl line with
      | some _ =>
        let (items, rest2) := ulItems (fuel + 1) (line :: rest)
        let out := listsGo fuel rest2
        if items = [] then out
        else (("<ul>".data) ++ catL items ++ ("</ul>".data)) :: out
      | none => line :: listsGo fuel rest

/-! ### Paragraph wrapping -/

/-- Matcher for paragraph breaks `\n\n+` → `</p><p>`. -/
def mParaBreak (cs : List Char) : Option (List Char × List Char) :=
  match cs with
  | '\n' :: '\n' :: rest =>
    some (("</p><p>".data), rest.dropWhile (fun c => c = '\n'))
  | _ => none

/-- Opening and closing structured-macro delimiters used by the
paragraph-protection split. -/
def smOpen : List Char := "<ac:structured-macro".data

/-- Closing structured-macro tag. -/
def smClose : List Char := "</ac:structured-macro>".data

/-- `input.split(/(<ac:structured-macro[\s\S]*?<\/ac:structured-macro>)/g)`:
alternating plain parts and captured macro spans, empt parts kept. -/
def macroSplit : Nat → List Char → List (List Char)
  | 0, cs => [cs]
  | fuel + 1, cs =>
    match findSub smOpen (cs.length + 1) cs with
    | none => [cs]
    | some (pre, post) =>
      match findSub smClose (post.length + 1) post with
      | none => [cs]
      | some (mid, post2) =>
        pre :: (smOpen ++ mid ++ smClose) :: macroSplit fuel post2

/-- Per-line effect of `([^>])$` → `$1</p>` (multiline): a nonempty line whose
last character is not `>` gets a trailing closing tag. -/
def trailLine (l : List Char) : List Char :=
  if l ≠ [] ∧ l.getLastD ' ' ≠ '>' then l ++ ("</p>".data) else l

/-- All-lines effect of `([^>])$` → `$1</p>`: besides the per-line rule, a
newline character directly followed by a line end also matches (as `[^>]`
admits `\n`), so every empty line after the first becomes `</p>`. -/
def trailLines : List (List Char) → List (List Char)
  | [] => []
  | l :: ls => trailLine l :: ls.map (fun l2 => if l2 = [] then ("</p>".data) else trailLine l2)

/-- The `addTrailParagraphs` helper of `convertParagraphs`. -/
def addTrailParagraphs (cs : List Char) : List Char :=
  ((macroSplit (cs.length + 1) cs).map
    (fun part => if smOpen.isPrefixOf part then part
      else joinNl (trailLines (splitNl part)))).foldl
    (fun a p => a ++ p) []

/-- Matcher removing empty paragraphs `<p></p>`. -/
def mEmptyPara (cs : List Char) : Option (List Char × List Char) :=
  if ("<p></p>".data).isPrefixOf cs then some ([], cs.drop 7) else none

/-- Match the block-tag alternation `h\d|ul|ol|table|blockquote|ac:|hr` after
an opening `<`; returns the matched tag-start characters and the rest. -/
def matchOpenTag (cs : List Char) : Option (List Char × List Char) :=
  match cs with
  | 'h' :: d :: rest => if d.isDigit then some (['h', d], rest) else tryLits cs
  | _ => tryLits cs
where
  tryLits (cs : List Char) : Option (List Char × List Char) :=
    if ("ul".data).isPrefixOf cs then some ("ul".data, cs.drop 2)
    else if ("ol".data).isPrefixOf cs then some ("ol".data, cs.drop 2)
    else if ("table".data).isPrefixOf cs then some ("table".data, cs.drop 5)
    else if ("blockquote".data).isPrefixOf cs then some ("blockquote".data, cs.drop 10)
    else if ("ac:".data).isPrefixOf cs then some ("ac:".data, cs.drop 3)
    else if ("hr".data).isPrefixOf cs then some ("hr".data, cs.drop 2)
    else none

/-- Matcher for `<p>(<(?:h\d|ul|ol|table|blockquote|ac:|hr))` → `$1`. -/
def mOpenBlock (cs : List Char) : Option (List Char × List Char) :=
  match cs with
  | '<' :: 'p' :: '>' :: '<' :: rest =>
    match matchOpenTag rest with
    | some (tag, rest2) => some ('<' :: tag, rest2)
    | none => none
  | _ => none

/-- Match the closing-tag alternation
`h\d|ul|ol|table|blockquote|ac:structured-macro|hr\/` after `</`. -/
def matchCloseTag (cs : List Char) : Option (List Char × List Char) :=
  match cs with
  | 'h' :: d :: rest => if d.isDigit then some (['h', d], rest) else tryLits cs
  | _ => tryLits cs
where
  tryLits (cs : List Char) : Option (List Char × List Char) :=
    if ("ul".data).isPrefixOf cs then some ("ul".data, cs.drop 2)
    else if ("ol".data).isPrefixOf cs then some ("ol".data, cs.drop 2)
    else if ("table".data).isPrefixOf cs then some ("table".data, cs.drop 5)
    else if ("blockquote".data).isPrefixOf cs then some ("blockquote".data, cs.drop 10)
    else if ("ac:structured-macro".data).isPrefixOf cs then
      some ("ac:structured-macro".data, cs.drop 19)
    else if ("hr/".data).isPrefixOf cs then some ("hr/".data, cs.drop 3)
    else none

/-- Matcher for `(<\/(?:...)>)<\/p>` → `$1`. -/
def mCloseBlock (cs : List Char) : Option (List Char × List Char) :=
  match cs with
  | '<' :: '/' :: rest =>
    match matchCloseTag rest with
    | some (tag, rest2) =>
      match rest2 with
      | '>' :: rest3 =>
        if ("</p>".data).isPrefixOf rest3 then
          some ('<' :: '/' :: tag ++ ['>'], rest3.drop 4)
        else none
      | _ => none
    | none => none
  | _ => none

/-! ### Stage functions (same names as the TypeScript methods) -/

/-- Run a matcher-based rewrite over a whole string. -/
def runScan (m : List Char → Option (List Char × List Char)) (s : String) : String :=
  ⟨scanRw m (s.data.length + 1) s.data⟩

/-- `convertDataviewJsTags`. -/
def convertDataviewJsTags (s : String) : String := runScan mDataview s

/-- `convertWikiLinks`. -/
def convertWikiLinks (s : String) : String := runScan mWikiLink s

/-- `removeInlineIcons`. -/
def removeInlineIcons (s : String) : String := runScan mIcon s

/-- `convertHeadings`. -/
def convertHeadings (s : String) : String := ⟨mapLines headingLine s.data⟩

/-- `convertCodeBlocks`. -/
def convertCodeBlocks (s : String) : String := runScan mCodeBlock s

/-- `convertImages`. -/
def convertImages (s : String) : String := runScan mImage s

/-- `convertTables`. -/
def convertTables (s : String) : String := ⟨tablesGo (s.data.length + 1) true s.data⟩

/-- `convertTaskLists`. -/
def convertTaskLists (s : String) : String := ⟨mapLines taskLine s.data⟩

/-- `convertTextFormatting`: the six sequential emphasis rewrites. -/
def convertTextFormatting (s : String) : String :=
  let p1 := runScan (mDelim ("***".data) ("<strong><em>".data) ("</em></strong>".data)) s
  let p2 := runScan (mDelim ("___".data) ("<strong><em>".data) ("</em></strong>".data)) p1
  let p3 := runScan (mDelim ("**".data) ("<strong>".data) ("</strong>".data)) p2
  let p4 := runScan (mDelim ("__".data) ("<strong>".data) ("</strong>".data)) p3
  let p5 := runScan (mItal '*') p4
  runScan (mItal '_') p5

/-- `convertStrikethrough`. -/
def convertStrikethrough (s : String) : String :=
  runScan (mDelim ("~~".data) ("<s>".data) ("</s>".data)) s

/-- `convertLinks`. -/
def convertLinks (s : String) : String := runScan mLink s

/-- `convertInlineCode`. -/
def convertInlineCode (s : String) : String := runScan mInline s

/-- `convertHorizontalRules`. -/
def convertHorizontalRules (s : String) : String := ⟨mapLines hrLine s.data⟩

/-- `convertBlockquotes`: line rewrite, then merging of adjacent blockquotes. -/
def convertBlockquotes (s : String) : String :=
  runScan mBqJoin ⟨mapLines bqLine s.data⟩

/-- `convertLists`. -/
def convertLists (s : String) : String :=
  ⟨joinNl (listsGo ((splitNl s.data).length + 1) (splitNl s.data))⟩

/-- `convertParagraphs`: paragraph breaks, trailing tags, cleanup passes. -/
def convertParagraphs (s : String) : String :=
  let r1 := runScan mParaBreak s
  let r2 : String := ⟨addTrailParagraphs r1.data⟩
  let r3 := runScan mEmptyPara r2
  let r4 := runScan mOpenBlock r3
  runScan mCloseBlock r4

/-- `convertMarkdownToConfluence`: the fixed stage pipeline. -/
def convertMarkdownToConfluence (markdown : String) : String :=
  let c1 := convertDataviewJsTags markdown
  let c2 := convertWikiLinks c1
  let c3 := removeInlineIcons c2
  let c4 := convertHeadings c3
  let c5 := convertCodeBlocks c4
  let c6 := convertImages c5
  let c7 := convertTables c6
  let c8 := convertTaskLists c7
  let c9 := convertTextFormatting c8
  let c10 := convertStrikethrough c9
  let c11 := convertLinks c10
  let c12 := convertInlineCode c11
  let c13 := convertHorizontalRules c12
  let c14 := convertBlockquotes c13
  let c15 := convertLists c14
  convertParagraphs c15

/-! ### Placeholder extraction (`uploadToConfluence`, lines 197–221) -/

/-- A mermaid block extracted from the markdown: deterministic filename and
the trimmed diagram source. -/
structure MermaidBlock where
  filename : String
  code : String
deriving DecidableEq

/-- An image attachment reference extracted from the markdown. -/
structure ImageAtt where
  filename : String
  placeholder : String
deriving DecidableEq

/-- Matcher for ```` ```mermaid\n([\s\S]+?)``` ````; returns the raw code. -/
def mMermaid (cs : List Char) : Option (List Char × List Char) :=
  if ("```mermaid\n".data).isPrefixOf cs then
    let r := cs.drop 11
    lazyToAny ("```".data) (r.length + 1) r
  else none

/-- Replace mermaid fences with `!MERMAID-PLACEHOLDER-{n}.svg` markers,
collecting the blocks in order. -/
def extractMermaidGo : Nat → Nat → List Char → List Char × List MermaidBlock
  | 0, _, cs => (cs, [])
  | _ + 1, _, [] => ([], [])
  | fuel + 1, idx, c :: cs =>
    match mMermaid (c :: cs) with
    | some (code, rest) =>
      let filename := "MERMAID-PLACEHOLDER-" ++ toString idx ++ ".svg"
      let (out, bs) := extractMermaidGo fuel (idx + 1) rest
      ('!' :: filename.data ++ out, ⟨filename, ⟨trimL code⟩⟩ :: bs)
    | none =>
      let (out, bs) := extractMermaidGo fuel idx cs
      (c :: out, bs)

/-- `uploadToConfluence`: mermaid extraction pass. -/
def extractMermaid (s : String) : String × List MermaidBlock :=
  let (out, bs) := extractMermaidGo (s.data.length + 1) 0 s.data
  (⟨out⟩, bs)

/-- Case-insensitive image extension check for `[^\]]+\.(png|jpe?g)` (the
regex carries the `i` flag, and its `[^\]]+` forces at least one character
before the extension dot, so the extension must be a proper suffix). -/
def hasImageExt (fname : List Char) : Bool :=
  let low := fname.map Char.toLower
  let ends := fun (suf : List Char) =>
    suf.isSuffixOf low && decide (suf.length < low.length)
  ends (".png".data) || ends (".jpg".data) || ends (".jpeg".data)

/-- Matcher for `!\[\[([^\]]+\.(png|jpe?g))\]\]/gi`; returns the inner name. -/
def mImageAtt (cs : List Char) : Option (List Char × List Char) :=
  match cs with
  | '!' :: '[' :: '[' :: r =>
    let inner := r.takeWhile (fun c => c ≠ ']')
    if inner ≠ [] ∧ hasImageExt inner then
      match r.drop inner.length with
      | ']' :: ']' :: rest => some (inner, rest)
      | _ => none
    else none
  | _ => none

/-- Replace local image embeds with `IMAGE-ATTACHMENT-{n}` markers. -/
def extractImagesGo : Nat → Nat → List Char → List Char × List ImageAtt
  | 0, _, cs => (cs, [])
  | _ + 1, _, [] => ([], [])
  | fuel + 1, idx, c :: cs =>
    match mImageAtt (c :: cs) with
    | some (inner, rest) =>
      let placeholder := "IMAGE-ATTACHMENT-" ++ toString idx
      let (out, ims) := extractImagesGo fuel (idx + 1) rest
      (placeholder.data ++ out, ⟨⟨trimL inner⟩, placeholder⟩ :: ims)
    | none =>
      let (out, ims) := extractImagesGo fuel idx cs
      (c :: out, ims)

/-- `uploadToConfluence`: image attachment extraction pass. -/
def extractImages (s : String) : String × List ImageAtt :=
  let (out, ims) := extractImagesGo (s.data.length + 1) 0 s.data
  (⟨out⟩, ims)

/-- Matcher for `(<p>)?TOKEN(</p>)?` (the placeholder substitution pattern). -/
def mToken (tok : List Char) (cs : List Char) : Option (List Char × List Char) :=
  let afterTok := fun (rest : List Char) =>
    if ("</p>".data).isPrefixOf rest then rest.drop 4 else rest
  if (("<p>".data) ++ tok).isPrefixOf cs then
    some ([], afterTok (cs.drop (3 + tok.length)))
  else if tok.isPrefixOf cs then
    some ([], afterTok (cs.drop tok.length))
  else none

/-- Global replacement of `(<p>)?TOKEN(</p>)?` by `rep`. -/
def substToken (tok rep s : String) : String :=
  ⟨scanRw (fun cs => (mToken tok.data cs).map (fun pr => (rep.data, pr.2)))
    (s.data.length + 1) s.data⟩

/-- The attachment-embed image markup substituted for a resolved placeholder. -/
def attachmentEmbed (filename : String) : String :=
  "<ac:image ac:width=\"500\"><ri:attachment ri:filename=\"" ++ filename ++ "\" /></ac:image>"

/-! ### Remote model (Confluence pages and the transport calls) -/

/-- A remote Confluence page as the synchronizer sees it: opaque id, title,
stored body, version number, immediate parent (last ancestor), and whether
the page is archived. -/
structure RPage where
  id : Nat
  title : String
  body : String
  version : Nat
  parent : Option Nat
  archived : Bool
deriving DecidableEq

/-- The remote space: the pages in the order the search API returns them,
plus the next fresh id. -/
structure Remote where
  pages : List RPage
  nextId : Nat
deriving DecidableEq

/-- One transport call recorded during a synchronization run. -/
inductive SyncCall where
  | createCall (title body : String) (parent : Option Nat)
  | updateCall (id : Nat) (title body : String) (newVersion : Nat) (parent : Option Nat)
  | uploadCall (pageId : Nat) (filename : String)
deriving DecidableEq

/-- Is this call a `createPage` call? -/
def SyncCall.isCreate : SyncCall → Bool
  | .createCall _ _ _ => true
  | _ => false

/-- Is this call an `updatePage` call? -/
def SyncCall.isUpdate : SyncCall → Bool
  | .updateCall _ _ _ _ _ => true
  | _ => false

/-- Predicate used by the `status=current` search plus the client-side
archived filter: an active page with the requested title. -/
def activeTitled (t : String) (p : RPage) : Bool :=
  p.title = t && !p.archived

/-- `findExistingPage` (lines 435–489): search active pages by title; with no
`parentId` return the first hit, otherwise the first hit whose immediate
parent is `parentId`. -/
def findExistingPage (st : Remote) (t : String) (parentId : Option Nat) : Option RPage :=
  let actives := st.pages.filter (activeTitled t)
  match parentId with
  | none => actives.head?
  | some pid => actives.find? (fun p => p.parent = some pid)

/-- `findArchivedPage` (lines 491–518): `status=archived` search, first hit. -/
def findArchivedPage (st : Remote) (t : String) : Option RPage :=
  (st.pages.filter (fun p => p.title = t && p.archived)).head?

/-- `createPage` (lines 544–594): a fresh page at version 1 with the given
parent, appended to the space. -/
def createPage (st : Remote) (t body : String) (parentId : Option Nat) :
    Remote × RPage :=
  let p : RPage := ⟨st.nextId, t, body, 1, parentId, false⟩
  (⟨st.pages ++ [p], st.nextId + 1⟩, p)

/-- The page produced by `updatePage`: version `currentVersion + 1`, new
title and body; ancestors are submitted (and hence the parent changed) only
when `parentId` is non-null. -/
def applyUpdate (p : RPage) (t body : String) (newVersion : Nat)
    (parentId : Option Nat) : RPage :=
  ⟨p.id, t, body, newVersion,
    (match parentId with | some q => some q | none => p.parent), p.archived⟩

/-- `updatePage` (lines 596–647) on the remote state: rewrite the page with
the matching id in place and return the updated page object. -/
def updatePage (st : Remote) (pid : Nat) (t body : String) (currentVersion : Nat)
    (parentId : Option Nat) : Remote × RPage :=
  let f := fun (p : RPage) =>
    if p.id = pid then applyUpdate p t body (currentVersion + 1) parentId else p
  (⟨st.pages.map f, st.nextId⟩,
    match st.pages.find? (fun p => p.id = pid) with
    | some p => applyUpdate p t body (currentVersion + 1) parentId
    | none => applyUpdate ⟨pid, t, body, 0, none, false⟩ t body (currentVersion + 1) parentId)

/-- The fixed boilerplate body of a folder page. -/
def folderBoiler : String := "<p>This page represents a folder in your Obsidian vault.</p>"

/-- The remote page URL used in diagnostics. -/
def pageUrl (domain spaceKey : String) (id : Nat) : String :=
  domain ++ "/wiki/spaces/" ++ spaceKey ++ "/pages/" ++ toString id

/-- The fatal diagnostic for an archived-title conflict (lines 411–416). -/
def archivedMsg (domain spaceKey seg : String) (archivedId : Nat) : String :=
  "Cannot create page \"" ++ seg ++
    "\" - an archived page with this title exists. Please permanently delete it from Confluence trash first: "
    ++ pageUrl domain spaceKey archivedId

/-- One iteration of the `ensureFolderHierarchy` loop (lines 371–430) for a
single folder segment: find under the current parent, else re-parent a page
found anywhere, else fail on an archived page, else create. -/
def folderStep (domain spaceKey : String) (st : Remote) (pid : Option Nat)
    (seg : String) : Except String (Remote × Option Nat × List SyncCall) :=
  match findExistingPage st seg pid with
  | some p => .ok (st, some p.id, [])
  | none =>
    match findExistingPage st seg none with
    | some anyP =>
      .ok ((updatePage st anyP.id seg folderBoiler anyP.version pid).1,
        some (updatePage st anyP.id seg folderBoiler anyP.version pid).2.id,
        [SyncCall.updateCall anyP.id seg folderBoiler (anyP.version + 1) pid])
    | none =>
      match findArchivedPage st seg with
      | some ap => .error (archivedMsg domain spaceKey seg ap.id)
      | none =>
        .ok ((createPage st seg folderBoiler pid).1,
          some (createPage st seg folderBoiler pid).2.id,
          [SyncCall.createCall seg folderBoiler pid])

/-- The `ensureFolderHierarchy` loop over all folder segments, threading the
current parent id and accumulating the transport calls. -/
def foldersGo (domain spaceKey : String) :
    Remote → Option Nat → List String → Except String (Remote × Option Nat × List SyncCall)
  | st, pid, [] => .ok (st, pid, [])
  | st, pid, seg :: rest =>
    match folderStep domain spaceKey st pid seg with
    | .error e => .error e
    | .ok (st2, pid2, cs) =>
      match foldersGo domain spaceKey st2 pid2 rest with
      | .error e => .error e
      | .ok (st3, pid3, cs2) => .ok (st3, pid3, cs ++ cs2)

/-- `ensureFolderHierarchy` (lines 364–433). -/
def ensureFolderHierarchy (domain spaceKey : String) (st : Remote)
    (folderPath : List String) : Except String (Remote × Option Nat × List SyncCall) :=
  foldersGo domain spaceKey st none folderPath

/-! ### The full synchronization run (`uploadToConfluence`, lines 186–362) -/

/-- Outcomes of the external collaborators: whether Kroki renders a given
diagram source, whether an attachment upload succeeds for a filename, and
whether a vault image file can be read. -/
structure SyncEnv where
  renderOk : String → Bool
  uploadOk : String → Bool
  readOk : String → Bool
deriving Inhabited

/-- Process the mermaid blocks (lines 266–301): render, upload, substitute;
a failure at any step of one block leaves its placeholder in place and
continues with the next block. -/
def processMermaid (env : SyncEnv) (pageId : Nat) :
    String → List SyncCall → List MermaidBlock → String × List SyncCall
  | content, calls, [] => (content, calls)
  | content, calls, b :: rest =>
    if env.renderOk b.code then
      if env.uploadOk b.filename then
        processMermaid env pageId
          (substToken ("!" ++ b.filename) (attachmentEmbed b.filename) content)
          (calls ++ [SyncCall.uploadCall pageId b.filename]) rest
      else processMermaid env pageId content
        (calls ++ [SyncCall.uploadCall pageId b.filename]) rest
    else processMermaid env pageId content calls rest

/-- Process the image attachments (lines 304–347): read, upload, substitute;
same per-item failure recovery. -/
def processImages (env : SyncEnv) (pageId : Nat) :
    String → List SyncCall → List ImageAtt → String × List SyncCall
  | content, calls, [] => (content, calls)
  | content, calls, a :: rest =>
    if env.readOk a.filename then
      if env.uploadOk a.filename then
        processImages env pageId
          (substToken a.placeholder (attachmentEmbed a.filename) content)
          (calls ++ [SyncCall.uploadCall pageId a.filename]) rest
      else processImages env pageId content
        (calls ++ [SyncCall.uploadCall pageId a.filename]) rest
    else processImages env pageId content calls rest

/-- `uploadToConfluence`: extract placeholders, transcode, resolve the folder
chain, upsert the leaf page, then (whenever any placeholder exists) resolve
attachments and issue the final body-rewriting update.  Returns the final
state, the page object produced by the leaf upsert, and the call trace. -/
def uploadToConfluence (env : SyncEnv) (domain spaceKey : String) (st : Remote)
    (title markdownContent : String) (folderPath : List String) :
    Except String (Remote × RPage × List SyncCall) :=
  let blocks := (extractMermaid markdownContent).2
  let images := (extractImages (extractMermaid markdownContent).1).2
  let confluenceContent :=
    convertMarkdownToConfluence (extractImages (extractMermaid markdownContent).1).1
  let folderRes :=
    if folderPath.isEmpty then .ok (st, none, [])
    else ensureFolderHierarchy domain spaceKey st folderPath
  match folderRes with
  | .error e => .error e
  | .ok (st1, parentId, calls1) =>
    let leaf : Remote × RPage × List SyncCall :=
      match findExistingPage st1 title parentId with
      | some ex =>
        ((updatePage st1 ex.id title confluenceContent ex.version parentId).1,
          (updatePage st1 ex.id title confluenceContent ex.version parentId).2,
          [SyncCall.updateCall ex.id title confluenceContent (ex.version + 1) parentId])
      | none =>
        ((createPage st1 title confluenceContent parentId).1,
          (createPage st1 title confluenceContent parentId).2,
          [SyncCall.createCall title confluenceContent parentId])
    let st2 := leaf.1
    let page := leaf.2.1
    let calls2 := leaf.2.2
    if blocks.isEmpty && images.isEmpty then .ok (st2, page, calls1 ++ calls2)
    else
      let pm := processMermaid env page.id confluenceContent [] blocks
      let pim := processImages env page.id pm.1 pm.2 images
      .ok ((updatePage st2 page.id title pim.1 page.version parentId).1, page,
        calls1 ++ calls2 ++ pim.2 ++
          [SyncCall.updateCall page.id title pim.1 (page.version + 1) parentId])

/-! ### Auxiliary notions used by the claim statements -/

/-- Substring test on strings. -/
def containsSub (needle hay : String) : Bool :=
  match findSub needle.data (hay.data.length + 1) hay.data with
  | some _ => true
  | none => false

/-- Count the update calls in a trace. -/
def countUpdates (cs : List SyncCall) : Nat :=
  (cs.filter SyncCall.isUpdate).length

/-- Count the create calls in a trace. -/
def countCreates (cs : List SyncCall) : Nat :=
  (cs.filter SyncCall.isCreate).length

/-- An environment in which every external operation succeeds. -/
def envAll : SyncEnv := ⟨fun _ => true, fun _ => true, fun _ => true⟩

/-- An environment in which rendering fails exactly for the given source. -/
def envFailR (bad : String) : SyncEnv := ⟨fun c => c ≠ bad, fun _ => true, fun _ => true⟩

/-- The empty remote space. -/
def emptyRemote : Remote := ⟨[], 0⟩

/-- Two successive synchronization runs of the same document: feed the state
produced by a successful first run into a second run of `uploadToConfluence`. -/
def rerun (env : SyncEnv) (domain spaceKey : String) (st : Remote)
    (title md : String) (segs : List String) :
    Except String (Remote × RPage × List SyncCall) :=
  match uploadToConfluence env domain spaceKey st title md segs with
  | .error e => .error e
  | .ok (st1, _, _) => uploadToConfluence env domain spaceKey st1 title md segs

/-- The number of update calls a run issued (zero for a failed run). -/
def runUpdates : Except String (Remote × RPage × List SyncCall) → Nat
  | .ok (_, _, cs) => countUpdates cs
  | .error _ => 0

/-! ### C4 -/

/-- C4 (counterexample): transcoding the single python fence does not produce
the macro with CDATA body exactly `print(1)` — the captured body keeps the
trailing newline of the fenced block. -/
theorem C4_cdata_counterexample :
    convertMarkdownToConfluence "```python\nprint(1)\n```" ≠
      "<ac:structured-macro ac:name=\"code\"><ac:parameter ac:name=\"language\">python</ac:parameter><ac:plain-text-body><![CDATA[print(1)]]></ac:plain-text-body></ac:structured-macro>" := by
  decide

/-- C4 (amended): transcoding a document that is exactly one fenced code
block with language `python` and content `print(1)` yields a single code
macro with language parameter `python` and CDATA body `print(1)` followed by
the fence's trailing newline, with no enclosing paragraph tags. -/
theorem C4_code_fence_macro :
    convertMarkdownToConfluence "```python\nprint(1)\n```" =
      "<ac:structured-macro ac:name=\"code\"><ac:parameter ac:name=\"language\">python</ac:parameter><ac:plain-text-body><![CDATA[print(1)\n]]></ac:plain-text-body></ac:structured-macro>" := by
  decide

/-! ### C5 -/

/-- C5: the task-list rewrite recognises `- [x]` and `- [ ]` as claimed, but
the character class `[ x]` admits only a lowercase `x`, so `- [X] Done thing`
is left unchanged — the `toLowerCase()` call in the source shows the intent
was case-insensitive matching, which the regex does not implement. -/
theorem C5_task_list_case :
    convertTaskLists "- [X] Done thing" = "- [X] Done thing" ∧
    convertTaskLists "- [x] Done thing" =
      "<ac:task><ac:task-status>complete</ac:task-status><ac:task-body>Done thing</ac:task-body></ac:task>" ∧
    convertTaskLists "- [ ] Todo" =
      "<ac:task><ac:task-status>incomplete</ac:task-status><ac:task-body>Todo</ac:task-body></ac:task>" := by
  refine ⟨?_, ?_, ?_⟩ <;> decide

/-! ### C2 (counterexample) -/

/-- C2 (counterexample): plain text is not wrapped in a matched pair of
paragraph tags — the pipeline only appends a trailing `</p>`, never an
opening `<p>`. -/
theorem C2_plain_counterexample :
    convertMarkdownToConfluence "hello" = "hello</p>" ∧
    convertMarkdownToConfluence "hello" ≠ "<p>" ++ "hello" ++ "</p>" := by
  refine ⟨?_, ?_⟩ <;> decide

/-! ### C3 -/

/-- C3 (counterexample): a document whose only placeholder fails to resolve
still receives the final body-rewriting update call (submitting the body
with the placeholder left in place), contradicting the claim that no final
update is made when every placeholder fails. -/
theorem C3_final_update_counterexample :
    uploadToConfluence (envFailR "A") "https://x" "SP" emptyRemote "Doc"
        "```mermaid\nA\n```" [] =
      .ok (⟨[⟨0, "Doc", "!MERMAID-PLACEHOLDER-0.svg</p>", 2, none, false⟩], 1⟩,
        ⟨0, "Doc", "!MERMAID-PLACEHOLDER-0.svg</p>", 1, none, false⟩,
        [SyncCall.createCall "Doc" "!MERMAID-PLACEHOLDER-0.svg</p>" none,
         SyncCall.updateCall 0 "Doc" "!MERMAID-PLACEHOLDER-0.svg</p>" 2 none]) := by
  rfl

/-! ### C9 -/

/-- C9: placeholder resolution is independent per item: with two diagram
placeholders and exactly one failing (either the second or the first), the
run continues past the failure and the final body-rewriting update submits a
body containing the attachment-embed markup for the resolved diagram while
the failed diagram's placeholder token remains unsubstituted. -/
theorem C9_placeholder_independence :
    (uploadToConfluence (envFailR "B") "https://x" "SP" emptyRemote "Doc"
        "```mermaid\nA\n```\n\n```mermaid\nB\n```" [] =
      .ok (⟨[⟨0, "Doc",
          attachmentEmbed "MERMAID-PLACEHOLDER-0.svg" ++ "<p>!MERMAID-PLACEHOLDER-1.svg</p>",
          2, none, false⟩], 1⟩,
        ⟨0, "Doc", "!MERMAID-PLACEHOLDER-0.svg</p><p>!MERMAID-PLACEHOLDER-1.svg</p>", 1, none, false⟩,
        [SyncCall.createCall "Doc"
            "!MERMAID-PLACEHOLDER-0.svg</p><p>!MERMAID-PLACEHOLDER-1.svg</p>" none,
         SyncCall.uploadCall 0 "MERMAID-PLACEHOLDER-0.svg",
         SyncCall.updateCall 0 "Doc"
            (attachmentEmbed "MERMAID-PLACEHOLDER-0.svg" ++ "<p>!MERMAID-PLACEHOLDER-1.svg</p>")
            2 none]) ∧
      containsSub (attachmentEmbed "MERMAID-PLACEHOLDER-0.svg")
        (attachmentEmbed "MERMAID-PLACEHOLDER-0.svg" ++ "<p>!MERMAID-PLACEHOLDER-1.svg</p>") = true ∧
      containsSub "!MERMAID-PLACEHOLDER-1.svg"
        (attachmentEmbed "MERMAID-PLACEHOLDER-0.svg" ++ "<p>!MERMAID-PLACEHOLDER-1.svg</p>") = true) ∧
    (uploadToConfluence (envFailR "A") "https://x" "SP" emptyRemote "Doc"
        "```mermaid\nA\n```\n\n```mermaid\nB\n```" [] =
      .ok (⟨[⟨0, "Doc",
          "!MERMAID-PLACEHOLDER-0.svg</p>" ++ attachmentEmbed "MERMAID-PLACEHOLDER-1.svg",
          2, none, false⟩], 1⟩,
        ⟨0, "Doc", "!MERMAID-PLACEHOLDER-0.svg</p><p>!MERMAID-PLACEHOLDER-1.svg</p>", 1, none, false⟩,
        [SyncCall.createCall "Doc"
            "!MERMAID-PLACEHOLDER-0.svg</p><p>!MERMAID-PLACEHOLDER-1.svg</p>" none,
         SyncCall.uploadCall 0 "MERMAID-PLACEHOLDER-1.svg",
         SyncCall.updateCall 0 "Doc"
            ("!MERMAID-PLACEHOLDER-0.svg</p>" ++ attachmentEmbed "MERMAID-PLACEHOLDER-1.svg")
            2 none]) ∧
      containsSub (attachmentEmbed "MERMAID-PLACEHOLDER-1.svg")
        ("!MERMAID-PLACEHOLDER-0.svg</p>" ++ attachmentEmbed "MERMAID-PLACEHOLDER-1.svg") = true ∧
      containsSub "!MERMAID-PLACEHOLDER-0.svg"
        ("!MERMAID-PLACEHOLDER-0.svg</p>" ++ attachmentEmbed "MERMAID-PLACEHOLDER-1.svg") = true) := by
  exact ⟨⟨by rfl, by decide, by decide⟩, ⟨by rfl, by decide, by decide⟩⟩

/-! ### C6 (counterexample) -/

/-- Remote state for the C6 counterexample: an unrelated root page and a
page titled `Tech` parented under it (so `Tech` is not at the root). -/
def c6State : Remote :=
  ⟨[⟨0, "Other", "b", 1, none, false⟩, ⟨1, "Tech", "b", 3, some 0, false⟩], 2⟩

/-- C6 (counterexample): syncing `folderPath = ["Tech"]` while the only
`Tech` page sits at the wrong parent performs no update at all — with a null
current parent the lookup matches by title alone, so the code descends into
the misplaced page without re-parenting it (the state is unchanged and the
call list is empty), contradicting the claimed update. -/
theorem C6_root_counterexample :
    ensureFolderHierarchy "https://x" "SP" c6State ["Tech"] =
      .ok (c6State, some 1, []) := by
  rfl

/-! ### Well-formedness of a remote state and basic lemmas -/

/-- A well-formed remote state: page ids are distinct and below the
fresh-id counter. -/
def WFRemote (st : Remote) : Prop :=
  (st.pages.map RPage.id).Nodup ∧ (∀ p ∈ st.pages, p.id < st.nextId)

/-- `applyUpdate` keeps the page id. -/
theorem applyUpdate_id (p : RPage) (t b : String) (v : Nat) (par : Option Nat) :
    (applyUpdate p t b v par).id = p.id := rfl

/-- Membership from a successful `head?`. -/
theorem mem_of_headSome {α : Type} {l : List α} {a : α} (h : l.head? = some a) :
    a ∈ l := by
  cases l with
  | nil => cases h
  | cons b t =>
    simp only [List.head?_cons, Option.some.injEq] at h
    rw [← h]
    exact List.mem_cons_self b t

/-- The page object returned by `updatePage` carries the requested id. -/
theorem updatePage_snd_id (st : Remote) (pid : Nat) (t b : String) (cv : Nat)
    (par : Option Nat) : (updatePage st pid t b cv par).2.id = pid := by
  unfold updatePage
  cases h : st.pages.find? (fun p => p.id = pid) with
  | none => rfl
  | some p =>
    have hp : p.id = pid := by
      have := List.find?_some h
      simpa using this
    simp only [applyUpdate_id]
    exact hp

/-- In a state with distinct ids, `updatePage` rewrites exactly the page
found by id, and a subsequent id lookup returns the updated page. -/
theorem updatePage_find_self (l : List RPage) (q : RPage) (hq : q ∈ l)
    (hnd : (l.map RPage.id).Nodup) (t b : String) (v : Nat) (par : Option Nat) :
    (l.map (fun p => if p.id = q.id then applyUpdate p t b v par else p)).find?
        (fun r => r.id = q.id) = some (applyUpdate q t b v par) := by
  induction l with
  | nil => cases hq
  | cons r l ih =>
    rw [List.map_cons] at hnd
    rw [List.nodup_cons] at hnd
    by_cases hid : r.id = q.id
    · have hrq : r = q := by
        cases hq with
        | head => rfl
        | tail _ hmem =>
          exact absurd (hid ▸ List.mem_map_of_mem RPage.id hmem) hnd.1
      subst hrq
      rw [List.map_cons, if_pos hid]
      exact List.find?_cons_of_pos _ (by simp [applyUpdate_id])
    · have hq' : q ∈ l := by
        cases hq with
        | head => exact absurd rfl hid
        | tail _ hmem => exact hmem
      rw [List.map_cons, if_neg hid]
      rw [List.find?_cons_of_neg _ (by simpa using hid)]
      exact ih hq' hnd.2

/-- A page found by `findExistingPage` is an active page of the state with
the requested title. -/
theorem findExistingPage_mem (st : Remote) (t : String) (pid : Option Nat)
    (q : RPage) (h : findExistingPage st t pid = some q) :
    q ∈ st.pages ∧ q.title = t ∧ q.archived = false := by
  unfold findExistingPage at h
  have hmem : q ∈ st.pages.filter (activeTitled t) := by
    cases pid with
    | none => exact mem_of_headSome h
    | some p => exact List.mem_of_find?_eq_some h
  have := (List.mem_filter.mp hmem)
  refine ⟨this.1, ?_, ?_⟩
  · have h2 := this.2
    unfold activeTitled at h2
    simp only [Bool.and_eq_true, decide_eq_true_eq, Bool.not_eq_true'] at h2
    exact h2.1
  · have h2 := this.2
    unfold activeTitled at h2
    simp only [Bool.and_eq_true, decide_eq_true_eq, Bool.not_eq_true'] at h2
    exact h2.2

/-- With no active page of the given title in the space, every lookup
(for any parent) fails. -/
theorem findExistingPage_none (st : Remote) (t : String)
    (h : st.pages.filter (activeTitled t) = []) (pid : Option Nat) :
    findExistingPage st t pid = none := by
  unfold findExistingPage
  rw [h]
  cases pid <;> rfl

/-! ### C7 -/

/-- C7: with no active page of the segment's title anywhere in the space but
an archived one present, folder-chain resolution fails with the diagnostic
that carries the archived page's URL and issues no call at all for that
segment (in particular no `createPage`). -/
theorem C7_archived_conflict (d sp seg : String) (st : Remote) (pid : Option Nat)
    (a : RPage) (hact : st.pages.filter (activeTitled seg) = [])
    (harch : findArchivedPage st seg = some a) :
    folderStep d sp st pid seg = .error (archivedMsg d sp seg a.id) ∧
      (∃ pre, archivedMsg d sp seg a.id = pre ++ pageUrl d sp a.id) ∧
      (∀ res, folderStep d sp st pid seg ≠ .ok res) := by
  have h1 := findExistingPage_none st seg hact pid
  have h2 := findExistingPage_none st seg hact none
  unfold folderStep
  rw [h1, h2, harch]
  exact ⟨rfl, ⟨_, rfl⟩, fun res h => by cases h⟩

/-- C7 (witness): a concrete space holding only an archived `Tech` page. -/
theorem C7_archived_conflict_witness :
    (⟨[⟨5, "Tech", "b", 2, none, true⟩], 6⟩ : Remote).pages.filter (activeTitled "Tech") = [] ∧
    findArchivedPage ⟨[⟨5, "Tech", "b", 2, none, true⟩], 6⟩ "Tech" =
      some ⟨5, "Tech", "b", 2, none, true⟩ ∧
    folderStep "https://x" "SP" ⟨[⟨5, "Tech", "b", 2, none, true⟩], 6⟩ none "Tech" =
      .error (archivedMsg "https://x" "SP" "Tech" 5) :=
  ⟨by decide, by decide,
    (C7_archived_conflict "https://x" "SP" "Tech" ⟨[⟨5, "Tech", "b", 2, none, true⟩], 6⟩
      none ⟨5, "Tech", "b", 2, none, true⟩ (by decide) (by decide)).1⟩

/-! ### C6 (amended theorem) -/

/-- C6 (amended): when the current parent id is non-null and an active page
with the segment's title exists somewhere but not under that parent, the
resolution updates that page in place (re-parenting it) and descends into
its id, issuing exactly one update and no create; when the current parent id
is null, the initial lookup matches any active page with that title
regardless of its parent, so the resolution descends into it with no call at
all — in neither case is a second page with that title created. -/
theorem C6_reparent_amended (d sp seg : String) (st : Remote) (p : Nat) (q : RPage)
    (hany : findExistingPage st seg none = some q) :
    (findExistingPage st seg (some p) = none →
      folderStep d sp st (some p) seg =
        .ok ((updatePage st q.id seg folderBoiler q.version (some p)).1, some q.id,
          [SyncCall.updateCall q.id seg folderBoiler (q.version + 1) (some p)]) ∧
      countCreates [SyncCall.updateCall q.id seg folderBoiler (q.version + 1) (some p)] = 0) ∧
    (folderStep d sp st none seg = .ok (st, some q.id, [])) := by
  constructor
  · intro hnone
    constructor
    · unfold folderStep
      rw [hnone, hany]
      simp only [updatePage_snd_id]
    · rfl
  · unfold folderStep
    rw [hany]

/-- C6 (witness): the re-parent branch on a concrete space: `Tech` exists
under the wrong parent while the current parent is page 0. -/
theorem C6_reparent_witness :
    findExistingPage ⟨[⟨0, "P", "b", 1, none, false⟩, ⟨1, "Tech", "b", 3, some 2, false⟩], 3⟩
        "Tech" none = some ⟨1, "Tech", "b", 3, some 2, false⟩ ∧
    findExistingPage ⟨[⟨0, "P", "b", 1, none, false⟩, ⟨1, "Tech", "b", 3, some 2, false⟩], 3⟩
        "Tech" (some 0) = none ∧
    folderStep "https://x" "SP"
        ⟨[⟨0, "P", "b", 1, none, false⟩, ⟨1, "Tech", "b", 3, some 2, false⟩], 3⟩
        (some 0) "Tech" =
      .ok (⟨[⟨0, "P", "b", 1, none, false⟩, ⟨1, "Tech", folderBoiler, 4, some 0, false⟩], 3⟩,
        some 1, [SyncCall.updateCall 1 "Tech" folderBoiler 4 (some 0)]) :=
  ⟨by decide, by decide, by
    have h := ((C6_reparent_amended "https://x" "SP" "Tech"
      ⟨[⟨0, "P", "b", 1, none, false⟩, ⟨1, "Tech", "b", 3, some 2, false⟩], 3⟩ 0
      ⟨1, "Tech", "b", 3, some 2, false⟩ (by decide)).1 (by decide)).1
    exact h.trans (by decide)⟩

/-! ### C10 -/

/-- C10: the re-parent repair update submits the fixed folder boilerplate as
the page body, so the moved page's stored body is replaced by the
boilerplate (its title, which already equals the segment, is preserved). -/
theorem C10_reparent_boilerplate (d sp seg : String) (st : Remote) (p : Nat)
    (q : RPage) (hnd : (st.pages.map RPage.id).Nodup)
    (hnone : findExistingPage st seg (some p) = none)
    (hany : findExistingPage st seg none = some q) :
    ∃ st2, folderStep d sp st (some p) seg =
        .ok (st2, some q.id,
          [SyncCall.updateCall q.id seg folderBoiler (q.version + 1) (some p)]) ∧
      st2.pages.find? (fun r => r.id = q.id) =
        some (applyUpdate q seg folderBoiler (q.version + 1) (some p)) ∧
      (applyUpdate q seg folderBoiler (q.version + 1) (some p)).body = folderBoiler ∧
      (applyUpdate q seg folderBoiler (q.version + 1) (some p)).title = q.title := by
  obtain ⟨hmem, htitle, _⟩ := findExistingPage_mem st seg none q hany
  refine ⟨(updatePage st q.id seg folderBoiler q.version (some p)).1, ?_, ?_, rfl, ?_⟩
  · unfold folderStep
    rw [hnone, hany]
    simp only [updatePage_snd_id]
  · unfold updatePage
    exact updatePage_find_self st.pages q hmem hnd seg folderBoiler (q.version + 1) (some p)
  · show seg = q.title
    exact htitle.symm

/-- C10 (witness): the concrete re-parent scenario of the C6 witness, with
the body replacement visible in the final state. -/
theorem C10_reparent_boilerplate_witness :
    ((⟨[⟨0, "P", "b", 1, none, false⟩, ⟨1, "Tech", "b", 3, some 2, false⟩], 3⟩ : Remote).pages.map
        RPage.id).Nodup ∧
    ∃ st2, folderStep "https://x" "SP"
        ⟨[⟨0, "P", "b", 1, none, false⟩, ⟨1, "Tech", "b", 3, some 2, false⟩], 3⟩
        (some 0) "Tech" =
        .ok (st2, some 1, [SyncCall.updateCall 1 "Tech" folderBoiler 4 (some 0)]) ∧
      st2.pages.find? (fun r => r.id = 1) =
        some (applyUpdate ⟨1, "Tech", "b", 3, some 2, false⟩ "Tech" folderBoiler 4 (some 0)) ∧
      (applyUpdate (⟨1, "Tech", "b", 3, some 2, false⟩ : RPage) "Tech" folderBoiler 4
          (some 0)).body = folderBoiler ∧
      (applyUpdate (⟨1, "Tech", "b", 3, some 2, false⟩ : RPage) "Tech" folderBoiler 4
          (some 0)).title = "Tech" :=
  ⟨by decide,
    C10_reparent_boilerplate "https://x" "SP" "Tech"
      ⟨[⟨0, "P", "b", 1, none, false⟩, ⟨1, "Tech", "b", 3, some 2, false⟩], 3⟩ 0
      ⟨1, "Tech", "b", 3, some 2, false⟩ (by decide) (by decide) (by decide)⟩

/-! ### C8 -/

/-- C8: with no `Tech`/`RnD` pages in the space (active or archived), syncing
`folderPath = ["Tech", "RnD"]` issues exactly two folder `createPage` calls —
`Tech` under root, then `RnD` under the id returned for `Tech` — followed by
the leaf create under `RnD`'s id; no other calls are made. -/
theorem C8_folder_creation (env : SyncEnv) (d sp title md : String) (st : Remote)
    (hpar : ∀ p ∈ st.pages, ∀ q2, p.parent = some q2 → q2 < st.nextId)
    (hTech : ∀ p ∈ st.pages, p.title ≠ "Tech")
    (hRnD : ∀ p ∈ st.pages, p.title ≠ "RnD")
    (hnb : (extractMermaid md).2 = [])
    (hni : (extractImages (extractMermaid md).1).2 = []) :
    uploadToConfluence env d sp st title md ["Tech", "RnD"] =
      .ok (⟨(st.pages ++ [⟨st.nextId, "Tech", folderBoiler, 1, none, false⟩] ++
            [⟨st.nextId + 1, "RnD", folderBoiler, 1, some st.nextId, false⟩]) ++
            [⟨st.nextId + 2, title,
              convertMarkdownToConfluence (extractImages (extractMermaid md).1).1, 1,
              some (st.nextId + 1), false⟩], st.nextId + 3⟩,
        ⟨st.nextId + 2, title,
          convertMarkdownToConfluence (extractImages (extractMermaid md).1).1, 1,
          some (st.nextId + 1), false⟩,
        [SyncCall.createCall "Tech" folderBoiler none,
         SyncCall.createCall "RnD" folderBoiler (some st.nextId),
         SyncCall.createCall title
           (convertMarkdownToConfluence (extractImages (extractMermaid md).1).1)
           (some (st.nextId + 1))]) := by
  have hfT : st.pages.filter (activeTitled "Tech") = [] :=
    List.filter_eq_nil.mpr fun p hp => by simp [activeTitled, hTech p hp]
  have haT : st.pages.filter (fun p => p.title = "Tech" && p.archived) = [] :=
    List.filter_eq_nil.mpr fun p hp => by simp [hTech p hp]
  have hstep1 : folderStep d sp st none "Tech" =
      .ok (⟨st.pages ++ [⟨st.nextId, "Tech", folderBoiler, 1, none, false⟩], st.nextId + 1⟩,
        some st.nextId, [SyncCall.createCall "Tech" folderBoiler none]) := by
    unfold folderStep findArchivedPage
    rw [findExistingPage_none st "Tech" hfT none, haT]
    rfl
  have hfR : (st.pages ++ [(⟨st.nextId, "Tech", folderBoiler, 1, none, false⟩ : RPage)]).filter
      (activeTitled "RnD") = [] := by
    rw [List.filter_append, List.filter_eq_nil.mpr fun p hp => by simp [activeTitled, hRnD p hp]]
    rfl
  have haR : (st.pages ++ [(⟨st.nextId, "Tech", folderBoiler, 1, none, false⟩ : RPage)]).filter
      (fun p => p.title = "RnD" && p.archived) = [] := by
    rw [List.filter_append, List.filter_eq_nil.mpr fun p hp => by simp [hRnD p hp]]
    rfl
  have hstep2 : folderStep d sp
      ⟨st.pages ++ [⟨st.nextId, "Tech", folderBoiler, 1, none, false⟩], st.nextId + 1⟩
      (some st.nextId) "RnD" =
      .ok (⟨st.pages ++ [⟨st.nextId, "Tech", folderBoiler, 1, none, false⟩] ++
          [⟨st.nextId + 1, "RnD", folderBoiler, 1, some st.nextId, false⟩], st.nextId + 2⟩,
        some (st.nextId + 1), [SyncCall.createCall "RnD" folderBoiler (some st.nextId)]) := by
    unfold folderStep findArchivedPage
    rw [findExistingPage_none _ "RnD" hfR (some st.nextId),
      findExistingPage_none _ "RnD" hfR none, haR]
    rfl
  have hfold : ensureFolderHierarchy d sp st ["Tech", "RnD"] =
      .ok (⟨st.pages ++ [⟨st.nextId, "Tech", folderBoiler, 1, none, false⟩] ++
          [⟨st.nextId + 1, "RnD", folderBoiler, 1, some st.nextId, false⟩], st.nextId + 2⟩,
        some (st.nextId + 1),
        [SyncCall.createCall "Tech" folderBoiler none,
         SyncCall.createCall "RnD" folderBoiler (some st.nextId)]) := by
    unfold ensureFolderHierarchy
    simp only [foldersGo, hstep1, hstep2]
    rfl
  have hleaf : findExistingPage
      ⟨st.pages ++ [⟨st.nextId, "Tech", folderBoiler, 1, none, false⟩] ++
        [⟨st.nextId + 1, "RnD", folderBoiler, 1, some st.nextId, false⟩], st.nextId + 2⟩
      title (some (st.nextId + 1)) = none := by
    unfold findExistingPage
    apply List.find?_eq_none.mpr
    intro x hx
    have hx2 := (List.mem_filter.mp hx).1
    simp only [List.mem_append, List.mem_singleton] at hx2
    rcases hx2 with (hx3 | hx3) | hx3
    · intro hpredx
      have := hpar x hx3 (st.nextId + 1) (by simpa using hpredx)
      omega
    · subst hx3
      simp
    · subst hx3
      simp only [decide_eq_true_eq]
      intro hc
      simp only [Option.some.injEq] at hc
      omega
  unfold uploadToConfluence
  simp only [hnb, hni, hfold, hleaf, List.isEmpty_nil, List.isEmpty_cons, Bool.and_self,
    Bool.false_eq_true, if_false, if_true]
  rfl

/-- C8 (witness): the empty space, a plain document. -/
theorem C8_folder_creation_witness :
    uploadToConfluence envAll "https://x" "SP" emptyRemote "Doc" "hello" ["Tech", "RnD"] =
      .ok (⟨([] ++ [⟨0, "Tech", folderBoiler, 1, none, false⟩] ++
            [⟨1, "RnD", folderBoiler, 1, some 0, false⟩]) ++
            [⟨2, "Doc", convertMarkdownToConfluence (extractImages (extractMermaid "hello").1).1,
              1, some 1, false⟩], 3⟩,
        ⟨2, "Doc", convertMarkdownToConfluence (extractImages (extractMermaid "hello").1).1, 1,
          some 1, false⟩,
        [SyncCall.createCall "Tech" folderBoiler none,
         SyncCall.createCall "RnD" folderBoiler (some 0),
         SyncCall.createCall "Doc"
           (convertMarkdownToConfluence (extractImages (extractMermaid "hello").1).1) (some 1)]) :=
  C8_folder_creation envAll "https://x" "SP" "Doc" "hello" emptyRemote
    (by intro p hp; cases hp) (by intro p hp; cases hp) (by intro p hp; cases hp)
    (by decide) (by decide)

/-! ### Plain text: characters that trigger no transcoder stage -/

/-- Characters with no role in any markdown construct handled by the
pipeline: ASCII letters, digits and spaces. -/
def plainChar (c : Char) : Bool := c.isAlpha || c.isDigit || c = ' '

/-- Every character of the list is plain. -/
def allPlain (cs : List Char) : Prop := ∀ c ∈ cs, plainChar c = true

/-- A plain character differs from any non-plain one. -/
theorem plain_ne (c : Char) (h : plainChar c = true) (d : Char)
    (hd : plainChar d = false) : c ≠ d := by
  intro he
  rw [he, hd] at h
  cases h

/-- `isPrefixOf` fails when the heads differ. -/
theorem prefixOf_cons_ne {a b : Char} {as bs : List Char} (h : a ≠ b) :
    (a :: as).isPrefixOf (b :: bs) = false := by
  simp [List.isPrefixOf, h]

/-- A rewrite scan is the identity when the matcher fires on no suffix. -/
theorem scanRw_id (m : List Char → Option (List Char × List Char)) :
    ∀ (fuel : Nat) (cs : List Char), (∀ n, m (cs.drop n) = none) →
      scanRw m fuel cs = cs := by
  intro fuel
  induction fuel with
  | zero => intro cs _; rfl
  | succ f ih =>
    intro cs h
    cases cs with
    | nil => rfl
    | cons c cs2 =>
      unfold scanRw
      have h0 := h 0
      simp only [List.drop_zero] at h0
      rw [h0]
      rw [ih cs2 (fun n => h (n + 1))]

/-- The matcher fires on no suffix of a plain list, provided it fires
neither on the empty list nor on any plain-headed list. -/
theorem dropsNone (m : List Char → Option (List Char × List Char))
    (h0 : m [] = none)
    (hplain : ∀ c cs, plainChar c = true → m (c :: cs) = none)
    (s : List Char) (hs : allPlain s) : ∀ n, m (s.drop n) = none := by
  intro n
  cases hd : s.drop n with
  | nil => exact h0
  | cons c cs =>
    exact hplain c cs (hs c (List.mem_of_mem_drop (hd ▸ List.mem_cons_self c cs)))

/-- A finite check of all suffixes of a concrete list. -/
theorem dropAllNoneOfCheck (m : List Char → Option (List Char × List Char))
    (t : List Char)
    (h : ((List.range (t.length + 1)).all (fun n => (m (t.drop n)).isNone)) = true) :
    ∀ n, m (t.drop n) = none := by
  have hall := List.all_eq_true.mp h
  intro n
  by_cases hn : n ≤ t.length
  · have := hall n (List.mem_range.mpr (by omega))
    simpa [Option.isNone_iff_eq_none] using this
  · have h1 : t.drop n = [] := List.drop_eq_nil_of_le (by omega)
    have h2 : t.drop t.length = [] := List.drop_eq_nil_of_le (le_refl _)
    have := hall t.length (List.mem_range.mpr (by omega))
    rw [h2] at this
    rw [h1]
    simpa [Option.isNone_iff_eq_none] using this

/-- The matcher fires on no suffix of `s ++ t` when `s` is plain and all
suffixes of `t` are already known to be match-free. -/
theorem dropsNoneAppend (m : List Char → Option (List Char × List Char))
    (hplain : ∀ c cs, plainChar c = true → m (c :: cs) = none)
    (s : List Char) (hs : allPlain s) (t : List Char)
    (ht : ∀ n, m (t.drop n) = none) : ∀ n, m ((s ++ t).drop n) = none := by
  intro n
  by_cases hn : n ≤ s.length
  · rw [List.drop_append_of_le_length hn]
    cases hd : s.drop n with
    | nil =>
      have h0 := ht 0
      simp only [List.drop_zero] at h0
      rw [List.nil_append]
      exact h0
    | cons c cs =>
      exact hplain c _ (hs c (List.mem_of_mem_drop (hd ▸ List.mem_cons_self c cs)))
  · have hsplit : n = s.length + (n - s.length) := by omega
    rw [hsplit, List.drop_append]
    exact ht _

/-! ### No stage matcher fires on a plain-headed suffix -/

/-- `mDataview` needs a backtick. -/
theorem mDataview_plain (c : Char) (cs : List Char) (h : plainChar c = true) :
    mDataview (c :: cs) = none := by
  unfold mDataview
  rw [prefixOf_cons_ne (plain_ne c h '`' (by decide)).symm]
  rfl

/-- `mWikiLink` needs an opening bracket. -/
theorem mWikiLink_plain (c : Char) (cs : List Char) (h : plainChar c = true) :
    mWikiLink (c :: cs) = none := by
  have hne : c ≠ '[' := plain_ne c h '[' (by decide)
  unfold mWikiLink
  split
  · rename_i heq
    have hc : c = '[' := by simpa using congrArg List.head? heq
    exact absurd hc hne
  · rfl

/-- `mIcon` needs an exclamation mark. -/
theorem mIcon_plain (c : Char) (cs : List Char) (h : plainChar c = true) :
    mIcon (c :: cs) = none := by
  have hne : c ≠ '!' := plain_ne c h '!' (by decide)
  unfold mIcon
  split
  · rename_i heq
    have hc := congrArg List.head? heq
    simp only [List.head?_cons, Option.some.injEq] at hc
    exact absurd hc hne
  · rfl

/-- `mCodeBlock` needs a backtick. -/
theorem mCodeBlock_plain (c : Char) (cs : List Char) (h : plainChar c = true) :
    mCodeBlock (c :: cs) = none := by
  unfold mCodeBlock
  rw [prefixOf_cons_ne (plain_ne c h '`' (by decide)).symm]
  rfl

/-- `mImage` needs an exclamation mark. -/
theorem mImage_plain (c : Char) (cs : List Char) (h : plainChar c = true) :
    mImage (c :: cs) = none := by
  have hne : c ≠ '!' := plain_ne c h '!' (by decide)
  unfold mImage
  split
  · rename_i heq
    have hc := congrArg List.head? heq
    simp only [List.head?_cons, Option.some.injEq] at hc
    exact absurd hc hne
  · rfl

/-- `mDelim` with a non-plain leading delimiter character never fires on a
plain head. -/
theorem mDelim_plain (d0 : Char) (ds pre post : List Char) (hd0 : plainChar d0 = false)
    (c : Char) (cs : List Char) (h : plainChar c = true) :
    mDelim (d0 :: ds) pre post (c :: cs) = none := by
  unfold mDelim
  rw [prefixOf_cons_ne (plain_ne c h d0 hd0).symm]
  rfl

/-- `mItal` needs its delimiter character in head position. -/
theorem mItal_plain (d : Char) (hd : plainChar d = false) (c : Char) (cs : List Char)
    (h : plainChar c = true) : mItal d (c :: cs) = none := by
  have hne : c ≠ d := plain_ne c h d hd
  unfold mItal
  split
  · rename_i c0 c1 rest heq
    have hc0 : c = c0 := by simpa using congrArg List.head? heq
    rw [if_neg]
    intro hcon
    exact hne (hc0.trans hcon.1)
  · rfl

/-- `mLink` needs an opening bracket. -/
theorem mLink_plain (c : Char) (cs : List Char) (h : plainChar c = true) :
    mLink (c :: cs) = none := by
  have hne : c ≠ '[' := plain_ne c h '[' (by decide)
  unfold mLink
  split
  · rename_i heq
    have hc := congrArg List.head? heq
    simp only [List.head?_cons, Option.some.injEq] at hc
    exact absurd hc hne
  · rfl

/-- `mInline` needs a backtick. -/
theorem mInline_plain (c : Char) (cs : List Char) (h : plainChar c = true) :
    mInline (c :: cs) = none := by
  have hne : c ≠ '`' := plain_ne c h '`' (by decide)
  unfold mInline
  split
  · rename_i heq
    have hc := congrArg List.head? heq
    simp only [List.head?_cons, Option.some.injEq] at hc
    exact absurd hc hne
  · rfl

/-- `mBqJoin` needs an angle bracket. -/
theorem mBqJoin_plain (c : Char) (cs : List Char) (h : plainChar c = true) :
    mBqJoin (c :: cs) = none := by
  unfold mBqJoin
  rw [prefixOf_cons_ne (plain_ne c h '<' (by decide)).symm]
  rfl

/-- `mParaBreak` needs a newline. -/
theorem mParaBreak_plain (c : Char) (cs : List Char) (h : plainChar c = true) :
    mParaBreak (c :: cs) = none := by
  have hne : c ≠ '\n' := plain_ne c h '\n' (by decide)
  unfold mParaBreak
  split
  · rename_i heq
    have hc := congrArg List.head? heq
    simp only [List.head?_cons, Option.some.injEq] at hc
    exact absurd hc hne
  · rfl

/-- `mEmptyPara` needs an angle bracket. -/
theorem mEmptyPara_plain (c : Char) (cs : List Char) (h : plainChar c = true) :
    mEmptyPara (c :: cs) = none := by
  unfold mEmptyPara
  rw [prefixOf_cons_ne (plain_ne c h '<' (by decide)).symm]
  rfl

/-- `mOpenBlock` needs an angle bracket. -/
theorem mOpenBlock_plain (c : Char) (cs : List Char) (h : plainChar c = true) :
    mOpenBlock (c :: cs) = none := by
  have hne : c ≠ '<' := plain_ne c h '<' (by decide)
  unfold mOpenBlock
  split
  · rename_i heq
    have hc := congrArg List.head? heq
    simp only [List.head?_cons, Option.some.injEq] at hc
    exact absurd hc hne
  · rfl

/-- `mCloseBlock` needs an angle bracket. -/
theorem mCloseBlock_plain (c : Char) (cs : List Char) (h : plainChar c = true) :
    mCloseBlock (c :: cs) = none := by
  have hne : c ≠ '<' := plain_ne c h '<' (by decide)
  unfold mCloseBlock
  split
  · rename_i heq
    have hc := congrArg List.head? heq
    simp only [List.head?_cons, Option.some.injEq] at hc
    exact absurd hc hne
  · rfl

/-! ### Line-level stages are the identity on plain text -/

/-- Splitting a newline-free list yields a single line. -/
theorem splitNl_no_nl (cs : List Char) (h : ∀ c ∈ cs, c ≠ '\n') :
    splitNl cs = [cs] := by
  induction cs with
  | nil => rfl
  | cons c cs2 ih =>
    unfold splitNl
    rw [if_neg (h c (List.mem_cons_self c cs2))]
    rw [ih (fun x hx => h x (List.mem_cons_of_mem c hx))]

/-- The last-element default of a nonempty list is a member. -/
theorem getLastD_mem (l : List Char) (hne : l ≠ []) (a : Char) : l.getLastD a ∈ l := by
  induction l with
  | nil => exact absurd rfl hne
  | cons c t ih =>
    cases ht : t with
    | nil => simp [List.getLastD]
    | cons c2 t2 =>
      have := ih (by simp [ht])
      rw [ht] at this
      simpa [List.getLastD] using List.mem_cons_of_mem c this

/-- `headingLine` is the identity when no leading hash is present. -/
theorem headingLine_plain (l : List Char) (hp : allPlain l) : headingLine l = l := by
  have hh : l.takeWhile (fun c => c = '#') = [] := by
    cases l with
    | nil => rfl
    | cons c t =>
      rw [List.takeWhile_cons]
      rw [if_neg]
      simp only [decide_eq_true_eq]
      exact plain_ne c (hp c (List.mem_cons_self c t)) '#' (by decide)
  unfold headingLine
  rw [hh]
  rfl

/-- `taskLine` is the identity on a plain line. -/
theorem taskLine_plain (l : List Char) (hp : allPlain l) : taskLine l = l := by
  unfold taskLine
  split
  · have := hp '-' (List.mem_cons_self _ _)
    simp [plainChar] at this
  · rfl

/-- `hrLine` is the identity on a plain line. -/
theorem hrLine_plain (l : List Char) (hp : allPlain l) : hrLine l = l := by
  unfold hrLine
  rw [if_neg]
  intro hcond
  rw [Bool.and_eq_true] at hcond
  cases l with
  | nil => simp at hcond
  | cons c t =>
    have hall := hcond.2
    rw [List.all_cons, Bool.and_eq_true] at hall
    have := plain_ne c (hp c (List.mem_cons_self c t)) '-' (by decide)
    simp only [decide_eq_true_eq] at hall
    exact this hall.1

/-- `bqLine` is the identity on a plain line. -/
theorem bqLine_plain (l : List Char) (hp : allPlain l) : bqLine l = l := by
  unfold bqLine
  split
  · have := hp '>' (List.mem_cons_self _ _)
    simp [plainChar] at this
  · rfl

/-- `olMatchL` finds nothing in a plain line: the dot of `\d+\. ` is not a
plain character. -/
theorem olMatchL_plain (l : List Char) (hp : allPlain l) : olMatchL l = none := by
  simp only [olMatchL]
  split
  · rfl
  · split
    · rename_i heq
      have hdot : '.' ∈ l :=
        List.mem_of_mem_drop (List.mem_of_mem_drop (heq ▸ List.mem_cons_self _ _))
      have := hp '.' hdot
      simp [plainChar] at this
    · rfl

/-- `ulMatchL` finds nothing in a plain line: the bullet characters are not
plain. -/
theorem ulMatchL_plain (l : List Char) (hp : allPlain l) : ulMatchL l = none := by
  simp only [ulMatchL]
  split
  · rename_i c0 content heq
    have hc : c0 ∈ l := List.mem_of_mem_drop (heq ▸ List.mem_cons_self _ _)
    have h1 := plain_ne c0 (hp c0 hc) '*' (by decide)
    have h2 := plain_ne c0 (hp c0 hc) '-' (by decide)
    rw [if_neg]
    simp [h1, h2]
  · rfl

/-- `matchTableLine` needs a pipe. -/
theorem matchTableLine_plain (c : Char) (cs : List Char) (h : plainChar c = true) :
    matchTableLine (c :: cs) = none := by
  have hne : c ≠ '|' := plain_ne c h '|' (by decide)
  unfold matchTableLine
  split
  · rename_i heq
    have hc := congrArg List.head? heq
    simp only [List.head?_cons, Option.some.injEq] at hc
    exact absurd hc hne
  · rfl

/-- The table scanner is the identity on pipe-free plain text. -/
theorem tablesGo_plain : ∀ (fuel : Nat) (b : Bool) (cs : List Char),
    allPlain cs → tablesGo fuel b cs = cs := by
  intro fuel
  induction fuel with
  | zero => intro b cs _; rfl
  | succ f ih =>
    intro b cs hp
    cases cs with
    | nil => rfl
    | cons c cs2 =>
      have hline := matchTableLine_plain c cs2 (hp c (List.mem_cons_self c cs2))
      have hrun : matchTableRun ((c :: cs2).length + 1) (c :: cs2) = none := by
        unfold matchTableRun
        rw [hline]
      have hp2 : allPlain cs2 := fun x hx => hp x (List.mem_cons_of_mem c hx)
      unfold tablesGo
      cases b with
      | false =>
        rw [if_neg (by decide)]
        rw [ih (c = '\n') cs2 hp2]
      | true =>
        rw [if_pos rfl, hrun, ih (c = '\n') cs2 hp2]

/-- `listsGo` leaves a non-list single line unchanged. -/
theorem listsGo_single (l : List Char) (h1 : rootOl l = none) (h2 : rootUl l = none)
    (fuel : Nat) : listsGo (fuel + 1) [l] = [l] := by
  unfold listsGo
  rw [h1, h2]
  cases fuel <;> rfl

/-- `findSub` fails when the needle's head does not occur at all. -/
theorem findSub_none (d : Char) (nd : List Char) :
    ∀ (fuel : Nat) (cs : List Char), d ∉ cs → findSub (d :: nd) fuel cs = none := by
  intro fuel
  induction fuel with
  | zero => intro cs _; rfl
  | succ f ih =>
    intro cs h
    cases cs with
    | nil => rfl
    | cons c cs2 =>
      unfold findSub
      rw [prefixOf_cons_ne (show d ≠ c from fun he => h (by
        rw [he]
        exact List.mem_cons_self c cs2))]
      rw [ih cs2 (fun hm => h (List.mem_cons_of_mem c hm))]
      rfl

/-! ### Every stage is the identity on plain single-line text -/

/-- Plain data of a string, as a convenient abbreviation. -/
theorem runScan_plain (m : List Char → Option (List Char × List Char))
    (h0 : m [] = none)
    (hplain : ∀ c cs, plainChar c = true → m (c :: cs) = none)
    (s : String) (hp : allPlain s.data) : runScan m s = s := by
  unfold runScan
  rw [scanRw_id m _ s.data (dropsNone m h0 hplain s.data hp)]

/-- `mapLines` with a line map that fixes the single plain line. -/
theorem mapLines_plain (f : List Char → List Char) (s : String)
    (hp : allPlain s.data) (hf : f s.data = s.data) : mapLines f s.data = s.data := by
  unfold mapLines
  rw [splitNl_no_nl s.data
    (fun c hc => plain_ne c (hp c hc) '\n' (by decide))]
  rw [List.map_cons, List.map_nil, hf]
  rfl

/-- Stage 1 fixes plain text. -/
theorem dataview_plain (s : String) (hp : allPlain s.data) :
    convertDataviewJsTags s = s :=
  runScan_plain mDataview rfl mDataview_plain s hp

/-- Stage 2 fixes plain text. -/
theorem wikiLinks_plain (s : String) (hp : allPlain s.data) :
    convertWikiLinks s = s :=
  runScan_plain mWikiLink rfl mWikiLink_plain s hp

/-- Stage 3 fixes plain text. -/
theorem icons_plain (s : String) (hp : allPlain s.data) :
    removeInlineIcons s = s :=
  runScan_plain mIcon rfl mIcon_plain s hp

/-- Stage 4 fixes plain text. -/
theorem headings_plain (s : String) (hp : allPlain s.data) :
    convertHeadings s = s := by
  unfold convertHeadings
  rw [mapLines_plain headingLine s hp (headingLine_plain s.data hp)]

/-- Stage 5 fixes plain text. -/
theorem codeBlocks_plain (s : String) (hp : allPlain s.data) :
    convertCodeBlocks s = s :=
  runScan_plain mCodeBlock rfl mCodeBlock_plain s hp

/-- Stage 6 fixes plain text. -/
theorem images_plain (s : String) (hp : allPlain s.data) :
    convertImages s = s :=
  runScan_plain mImage rfl mImage_plain s hp

/-- Stage 7 fixes plain text. -/
theorem tables_plain (s : String) (hp : allPlain s.data) :
    convertTables s = s := by
  unfold convertTables
  rw [tablesGo_plain (s.data.length + 1) true s.data hp]

/-- Stage 8 fixes plain text. -/
theorem tasks_plain (s : String) (hp : allPlain s.data) :
    convertTaskLists s = s := by
  unfold convertTaskLists
  rw [mapLines_plain taskLine s hp (taskLine_plain s.data hp)]

/-- Stage 9 fixes plain text. -/
theorem textFormatting_plain (s : String) (hp : allPlain s.data) :
    convertTextFormatting s = s := by
  have e1 : runScan (mDelim ("***".data) ("<strong><em>".data) ("</em></strong>".data)) s = s :=
    runScan_plain _ rfl (mDelim_plain '*' _ _ _ (by decide)) s hp
  have e2 : runScan (mDelim ("___".data) ("<strong><em>".data) ("</em></strong>".data)) s = s :=
    runScan_plain _ rfl (mDelim_plain '_' _ _ _ (by decide)) s hp
  have e3 : runScan (mDelim ("**".data) ("<strong>".data) ("</strong>".data)) s = s :=
    runScan_plain _ rfl (mDelim_plain '*' _ _ _ (by decide)) s hp
  have e4 : runScan (mDelim ("__".data) ("<strong>".data) ("</strong>".data)) s = s :=
    runScan_plain _ rfl (mDelim_plain '_' _ _ _ (by decide)) s hp
  have e5 : runScan (mItal '*') s = s :=
    runScan_plain _ rfl (mItal_plain '*' (by decide)) s hp
  have e6 : runScan (mItal '_') s = s :=
    runScan_plain _ rfl (mItal_plain '_' (by decide)) s hp
  show runScan (mItal '_') (runScan (mItal '*')
    (runScan (mDelim ("__".data) ("<strong>".data) ("</strong>".data))
      (runScan (mDelim ("**".data) ("<strong>".data) ("</strong>".data))
        (runScan (mDelim ("___".data) ("<strong><em>".data) ("</em></strong>".data))
          (runScan (mDelim ("***".data) ("<strong><em>".data) ("</em></strong>".data)) s))))) = s
  rw [e1, e2, e3, e4, e5, e6]

/-- Stage 10 fixes plain text. -/
theorem strikethrough_plain (s : String) (hp : allPlain s.data) :
    convertStrikethrough s = s :=
  runScan_plain _ rfl (mDelim_plain '~' _ _ _ (by decide)) s hp

/-- Stage 11 fixes plain text. -/
theorem links_plain (s : String) (hp : allPlain s.data) :
    convertLinks s = s :=
  runScan_plain mLink rfl mLink_plain s hp

/-- Stage 12 fixes plain text. -/
theorem inlineCode_plain (s : String) (hp : allPlain s.data) :
    convertInlineCode s = s :=
  runScan_plain mInline rfl mInline_plain s hp

/-- Stage 13 fixes plain text. -/
theorem hr_plain (s : String) (hp : allPlain s.data) :
    convertHorizontalRules s = s := by
  unfold convertHorizontalRules
  rw [mapLines_plain hrLine s hp (hrLine_plain s.data hp)]

/-- Stage 14 fixes plain text. -/
theorem blockquotes_plain (s : String) (hp : allPlain s.data) :
    convertBlockquotes s = s := by
  unfold convertBlockquotes
  rw [show (⟨mapLines bqLine s.data⟩ : String) = s from ?_]
  · exact runScan_plain mBqJoin rfl mBqJoin_plain s hp
  · rw [mapLines_plain bqLine s hp (bqLine_plain s.data hp)]

/-- Stage 15 fixes plain single-line text. -/
theorem lists_plain (s : String) (hp : allPlain s.data) :
    convertLists s = s := by
  unfold convertLists
  rw [splitNl_no_nl s.data (fun c hc => plain_ne c (hp c hc) '\n' (by decide))]
  have h1 : rootOl s.data = none := by
    unfold rootOl
    rw [olMatchL_plain s.data hp]
  have h2 : rootUl s.data = none := by
    unfold rootUl
    rw [ulMatchL_plain s.data hp]
  rw [show ([s.data] : List (List Char)).length + 1 = 1 + 1 from rfl]
  rw [listsGo_single s.data h1 h2 1]
  rfl

/-- Stage 16 on plain nonempty single-line text: a single trailing closing
paragraph tag is appended. -/
theorem paragraphs_plain (s : String) (hne : s.data ≠ [])
    (hp : allPlain s.data) : convertParagraphs s = s ++ "</p>" := by
  have hnl : ∀ c ∈ s.data, c ≠ '\n' := fun c hc => plain_ne c (hp c hc) '\n' (by decide)
  have hr1 : runScan mParaBreak s = s :=
    runScan_plain mParaBreak rfl mParaBreak_plain s hp
  have hlt : '<' ∉ s.data := fun hm => by
    have := hp '<' hm
    simp [plainChar] at this
  have hsplit : macroSplit (s.data.length + 1) s.data = [s.data] := by
    unfold macroSplit
    cases hf : s.data.length + 1 with
    | zero => rfl
    | succ f =>
      rw [show smOpen = '<' :: "ac:structured-macro".data from rfl]
      rw [findSub_none '<' _ (f + 1) s.data hlt]
  have htrail : addTrailParagraphs s.data = s.data ++ ("</p>".data) := by
    unfold addTrailParagraphs
    rw [hsplit]
    rw [List.map_cons, List.map_nil]
    rw [if_neg]
    · rw [splitNl_no_nl s.data hnl]
      show [joinNl (trailLines [s.data])].foldl (fun a p => a ++ p) [] = _
      rw [show trailLines [s.data] = [trailLine s.data] from rfl]
      rw [show trailLine s.data = s.data ++ ("</p>".data) from ?_]
      · rfl
      · unfold trailLine
        rw [if_pos]
        refine ⟨hne, ?_⟩
        exact plain_ne _ (hp _ (getLastD_mem s.data hne ' ')) '>' (by decide)
    · intro hpre
      cases hd : s.data with
      | nil => exact hne hd
      | cons c t =>
        rw [hd] at hpre
        rw [show smOpen = '<' :: "ac:structured-macro".data from rfl] at hpre
        rw [prefixOf_cons_ne (show '<' ≠ c from fun he => hlt (by
          rw [hd, ← he]
          exact List.mem_cons_self _ _))] at hpre
        cases hpre
  have htail1 : ∀ n, mEmptyPara (("</p>".data).drop n) = none :=
    dropAllNoneOfCheck mEmptyPara ("</p>".data) (by decide)
  have htail2 : ∀ n, mOpenBlock (("</p>".data).drop n) = none :=
    dropAllNoneOfCheck mOpenBlock ("</p>".data) (by decide)
  have htail3 : ∀ n, mCloseBlock (("</p>".data).drop n) = none :=
    dropAllNoneOfCheck mCloseBlock ("</p>".data) (by decide)
  have hclean : ∀ (m : List Char → Option (List Char × List Char)),
      (∀ c cs, plainChar c = true → m (c :: cs) = none) →
      (∀ n, m (("</p>".data).drop n) = none) →
      runScan m (s ++ "</p>") = s ++ "</p>" := by
    intro m hplain ht
    unfold runScan
    rw [show (s ++ "</p>").data = s.data ++ ("</p>".data) from rfl]
    rw [scanRw_id m _ _ (dropsNoneAppend m hplain s.data hp _ ht)]
    rfl
  show runScan mCloseBlock (runScan mOpenBlock (runScan mEmptyPara
    (⟨addTrailParagraphs (runScan mParaBreak s).data⟩ : String))) = s ++ "</p>"
  rw [hr1]
  rw [show (⟨addTrailParagraphs s.data⟩ : String) = s ++ "</p>" from by
    rw [htrail]
    rfl]
  rw [hclean mEmptyPara mEmptyPara_plain htail1]
  rw [hclean mOpenBlock mOpenBlock_plain htail2]
  rw [hclean mCloseBlock mCloseBlock_plain htail3]

/-! ### C2 (amended theorem) -/

/-- C2 (amended): for every nonempty markdown input containing no special
syntax (a single line of letters, digits and spaces), the transcoder returns
the input unchanged except for a single appended closing paragraph tag — it
never emits an opening paragraph tag, so the output is `input ++ "</p>"`
rather than a matched pair of paragraph tags. -/
theorem C2_plain_trailing_tag (s : String) (hne : s.data ≠ [])
    (hp : ∀ c ∈ s.data, plainChar c = true) :
    convertMarkdownToConfluence s = s ++ "</p>" := by
  show convertParagraphs (convertLists (convertBlockquotes (convertHorizontalRules
    (convertInlineCode (convertLinks (convertStrikethrough (convertTextFormatting
      (convertTaskLists (convertTables (convertImages (convertCodeBlocks
        (convertHeadings (removeInlineIcons (convertWikiLinks
          (convertDataviewJsTags s))))))))))))))) = s ++ "</p>"
  rw [dataview_plain s hp, wikiLinks_plain s hp, icons_plain s hp, headings_plain s hp,
    codeBlocks_plain s hp, images_plain s hp, tables_plain s hp, tasks_plain s hp,
    textFormatting_plain s hp, strikethrough_plain s hp, links_plain s hp,
    inlineCode_plain s hp, hr_plain s hp, blockquotes_plain s hp, lists_plain s hp,
    paragraphs_plain s hne hp]

/-- C2 (witness): the plain input `hello world 42`. -/
theorem C2_plain_trailing_tag_witness :
    ("hello world 42" : String).data ≠ [] ∧
    (∀ c ∈ ("hello world 42" : String).data, plainChar c = true) ∧
    convertMarkdownToConfluence "hello world 42" = "hello world 42" ++ "</p>" :=
  ⟨by decide, by decide,
    C2_plain_trailing_tag "hello world 42" (by decide) (by decide)⟩

/-! ### Infrastructure for the idempotence proof (C1) -/

/-- `head?` of a filter is `find?`. -/
theorem headFilter {α : Type} (pb : α → Bool) (l : List α) :
    (l.filter pb).head? = l.find? pb := by
  induction l with
  | nil => rfl
  | cons a t ih =>
    rw [List.filter_cons, List.find?_cons]
    cases h : pb a with
    | true => rfl
    | false => simpa using ih

/-- `find?` on a filter is `find?` with the conjoined predicate. -/
theorem filterFind {α : Type} (pb q : α → Bool) (l : List α) :
    (l.filter pb).find? q = l.find? (fun a => pb a && q a) := by
  induction l with
  | nil => rfl
  | cons a t ih =>
    rw [List.filter_cons, List.find?_cons]
    cases h : pb a with
    | true =>
      rw [if_pos rfl, List.find?_cons]
      cases hq : q a with
      | true => simp [hq]
      | false => simpa [hq] using ih
    | false => simpa using ih

/-- `findExistingPage` without a parent, as a single `find?`. -/
theorem findExisting_none_eq (st : Remote) (t : String) :
    findExistingPage st t none = st.pages.find? (activeTitled t) := by
  unfold findExistingPage
  exact headFilter (activeTitled t) st.pages

/-- `findExistingPage` with a parent, as a single `find?`. -/
theorem findExisting_some_eq (st : Remote) (t : String) (p : Nat) :
    findExistingPage st t (some p) =
      st.pages.find? (fun r => activeTitled t r && r.parent = some p) := by
  unfold findExistingPage
  exact filterFind (activeTitled t) (fun r => r.parent = some p) st.pages

/-- With distinct ids, the id lookup of a member returns that member. -/
theorem find?_id_self (l : List RPage) (x : RPage) (hx : x ∈ l)
    (hnd : (l.map RPage.id).Nodup) : l.find? (fun p => p.id = x.id) = some x := by
  induction l with
  | nil => cases hx
  | cons r t ih =>
    rw [List.map_cons, List.nodup_cons] at hnd
    by_cases hid : r.id = x.id
    · have hrx : r = x := by
        cases hx with
        | head => rfl
        | tail _ hmem => exact absurd (hid ▸ List.mem_map_of_mem RPage.id hmem) hnd.1
      subst hrx
      exact List.find?_cons_of_pos _ (by simp)
    · have hx' : x ∈ t := by
        cases hx with
        | head => exact absurd rfl hid
        | tail _ hmem => exact hmem
      rw [List.find?_cons_of_neg _ (by simpa using hid)]
      exact ih hx' hnd.2

/-- After an in-place update of the page found by `pr`, a search by `pr2`
finds exactly the updated page, provided pages failing `pr` also fail `pr2`
and the replacement satisfies `pr2`. -/
theorem find?_update_of_find? (pr pr2 : RPage → Bool) (l : List RPage) (q : RPage)
    (g : RPage → RPage)
    (hnd : (l.map RPage.id).Nodup) (hfound : l.find? pr = some q)
    (hskip : ∀ x ∈ l, pr x = false → pr2 x = false)
    (hu : pr2 (g q) = true) :
    (l.map (fun x => if x.id = q.id then g x else x)).find? pr2 = some (g q) := by
  induction l with
  | nil => cases hfound
  | cons r t ih =>
    rw [List.map_cons, List.nodup_cons] at hnd
    rw [List.map_cons]
    cases hr : pr r with
    | true =>
      rw [List.find?_cons_of_pos _ hr] at hfound
      have hrq : r = q := by simpa using hfound
      subst hrq
      rw [if_pos rfl]
      exact List.find?_cons_of_pos _ hu
    | false =>
      rw [List.find?_cons_of_neg _ (by simp [hr])] at hfound
      have hq : q ∈ t := List.mem_of_find?_eq_some hfound
      have hid : r.id ≠ q.id := fun he =>
        hnd.1 (he ▸ List.mem_map_of_mem RPage.id hq)
      rw [if_neg hid]
      rw [List.find?_cons_of_neg _
        (by simp [hskip r (List.mem_cons_self r t) hr])]
      exact ih hnd.2 hfound (fun x hx => hskip x (List.mem_cons_of_mem r hx))

/-- With distinct ids, distinct members have distinct ids. -/
theorem eq_of_mem_id (l : List RPage) (hnd : (l.map RPage.id).Nodup)
    (a b : RPage) (ha : a ∈ l) (hb : b ∈ l) (hid : a.id = b.id) : a = b := by
  induction l with
  | nil => cases ha
  | cons r t ih =>
    rw [List.map_cons, List.nodup_cons] at hnd
    cases ha with
    | head =>
      cases hb with
      | head => rfl
      | tail _ hmem => exact absurd (hid ▸ List.mem_map_of_mem RPage.id hmem) hnd.1
    | tail _ hmema =>
      cases hb with
      | head => exact absurd (hid ▸ List.mem_map_of_mem RPage.id hmema) hnd.1
      | tail _ hmemb => exact ih hnd.2 hmema hmemb

/-! ### State evolution preserving a find -/

/-- Relation between a page and its later self: id, title and archived
status never change; the parent is also unchanged unless the page's title is
one of the still-to-be-processed segment titles in `T`. -/
def pageShape (T : List String) (p q : RPage) : Prop :=
  q.id = p.id ∧ q.title = p.title ∧ q.archived = p.archived ∧
    (p.title ∉ T → q.parent = p.parent)

/-- The later state consists of shape-preserving updates of the earlier
pages followed by newly appended ones. -/
def presOutside (T : List String) (st st' : Remote) : Prop :=
  ∃ core ext, st'.pages = core ++ ext ∧ List.Forall₂ (pageShape T) st.pages core

/-- `presOutside` is reflexive. -/
theorem presOutside_refl (T : List String) (st : Remote) : presOutside T st st :=
  ⟨st.pages, [], (List.append_nil _).symm,
    List.forall₂_same.mpr (fun x _ => ⟨rfl, rfl, rfl, fun _ => rfl⟩)⟩

/-- Composition of pointwise related lists. -/
theorem forall2_comp {α : Type} {R S U : α → α → Prop}
    (h : ∀ a b c, R a b → S b c → U a c) :
    ∀ {l1 l2 l3 : List α}, List.Forall₂ R l1 l2 → List.Forall₂ S l2 l3 →
      List.Forall₂ U l1 l3 := by
  intro l1 l2 l3 h12 h23
  induction h12 generalizing l3 with
  | nil => cases h23; exact List.Forall₂.nil
  | cons hab htail ih =>
    cases h23 with
    | cons hbc htail2 => exact List.Forall₂.cons (h _ _ _ hab hbc) (ih htail2)

/-- `presOutside` composes, accumulating the exempted titles. -/
theorem presOutside_trans (A B : List String) (s1 s2 s3 : Remote)
    (h12 : presOutside A s1 s2) (h23 : presOutside B s2 s3) :
    presOutside (A ++ B) s1 s3 := by
  obtain ⟨c2, e2, hp2, hf2⟩ := h12
  obtain ⟨c3, e3, hp3, hf3⟩ := h23
  rw [hp2] at hf3
  have hf3a : List.Forall₂ (pageShape B) c2 (c3.take c2.length) := by
    have := List.forall₂_take c2.length hf3
    rwa [List.take_left] at this
  refine ⟨c3.take c2.length, c3.drop c2.length ++ e3, ?_, ?_⟩
  · rw [hp3, ← List.append_assoc, List.take_append_drop]
  · refine forall2_comp ?_ hf2 hf3a
    intro a b c hab hbc
    obtain ⟨i1, t1, a1, p1⟩ := hab
    obtain ⟨i2, t2, a2, p2⟩ := hbc
    refine ⟨i2.trans i1, t2.trans t1, a2.trans a1, ?_⟩
    intro hni
    rw [List.mem_append] at hni
    push_neg at hni
    have hb : b.title ∉ B := t1 ▸ hni.2
    exact (p2 hb).trans (p1 hni.1)

/-- `presOutside` weakens to a larger exemption set. -/
theorem presOutside_mono (A B : List String) (hAB : ∀ x, x ∈ A → x ∈ B)
    (st st' : Remote) (h : presOutside A st st') : presOutside B st st' := by
  obtain ⟨core, ext, hp, hf⟩ := h
  exact ⟨core, ext, hp, hf.imp (fun {a b} hab =>
    ⟨hab.1, hab.2.1, hab.2.2.1, fun hni => hab.2.2.2 (fun hm => hni (hAB _ hm))⟩)⟩

/-- `find?` transfers along pointwise related lists when the predicate is
invariant under the relation. -/
theorem find?_forall2 {R : RPage → RPage → Prop} (pa : RPage → Bool)
    {l l' : List RPage} (hf : List.Forall₂ R l l')
    (hpred : ∀ a b, R a b → pa a = pa b) (q : RPage)
    (h : l.find? pa = some q) : ∃ q', l'.find? pa = some q' ∧ R q q' := by
  induction hf with
  | nil => cases h
  | cons hab htail ih =>
    rename_i a b l1 l2
    cases hq : pa a with
    | true =>
      rw [List.find?_cons_of_pos _ hq] at h
      have : a = q := by simpa using h
      subst this
      exact ⟨b, List.find?_cons_of_pos _ ((hpred a b hab) ▸ hq), hab⟩
    | false =>
      rw [List.find?_cons_of_neg _ (by simp [hq])] at h
      obtain ⟨q', hq', hr⟩ := ih h
      exact ⟨q', by
        rw [List.find?_cons_of_neg _ (by simp [(hpred a b hab) ▸ hq])]
        exact hq', hr⟩

/-- A successful page lookup survives any evolution that protects the pages
of that title. -/
theorem findStable (T : List String) (st st' : Remote)
    (hpo : presOutside T st st') (t : String) (ht : t ∉ T) (pid : Option Nat)
    (P : RPage) (h : findExistingPage st t pid = some P) :
    ∃ Q, findExistingPage st' t pid = some Q ∧ Q.id = P.id := by
  obtain ⟨core, ext, hp, hf⟩ := hpo
  have hpred : ∀ (pr : RPage → Bool),
      (∀ a b, pageShape T a b → pr a = pr b) → ∀ q0,
      st.pages.find? pr = some q0 →
      ∃ q', (core ++ ext).find? pr = some q' ∧ pageShape T q0 q' := by
    intro pr hpr q0 h0
    obtain ⟨q', hq', hr⟩ := find?_forall2 pr hf hpr q0 h0
    refine ⟨q', ?_, hr⟩
    rw [List.find?_append, hq']
    rfl
  have htrans : ∀ a b, pageShape T a b →
      activeTitled t a = activeTitled t b := by
    intro a b hab
    unfold activeTitled
    rw [hab.2.1, hab.2.2.1]
  cases pid with
  | none =>
    rw [findExisting_none_eq] at h
    obtain ⟨q', hq', hr⟩ := hpred (activeTitled t) htrans P h
    refine ⟨q', ?_, hr.1⟩
    rw [findExisting_none_eq, hp]
    exact hq'
  | some p =>
    rw [findExisting_some_eq] at h
    have hpr2 : ∀ a b, pageShape T a b →
        (fun r => activeTitled t r && r.parent = some p) a =
        (fun r => activeTitled t r && r.parent = some p) b := by
      intro a b hab
      show (activeTitled t a && decide (a.parent = some p)) =
        (activeTitled t b && decide (b.parent = some p))
      rw [show activeTitled t a = activeTitled t b from htrans a b hab]
      cases hb : activeTitled t b with
      | false => rfl
      | true =>
        have hta : a.title = t := by
          have h2 := htrans a b hab
          rw [hb] at h2
          unfold activeTitled at h2
          simp only [Bool.and_eq_true, decide_eq_true_eq, Bool.not_eq_true'] at h2
          exact h2.1
        rw [hab.2.2.2 (hta ▸ ht)]
    obtain ⟨q', hq', hr⟩ := hpred (fun r => activeTitled t r && r.parent = some p) hpr2 P h
    refine ⟨q', ?_, hr.1⟩
    rw [findExisting_some_eq, hp]
    exact hq'

/-- After a successful folder step, the page the step descended into is
found by re-running the same lookup on the resulting state. -/
theorem stepFound (d sp : String) (st : Remote) (pid : Option Nat) (seg : String)
    (hwf : WFRemote st) (st2 : Remote) (pid2 : Option Nat) (cs : List SyncCall)
    (h : folderStep d sp st pid seg = .ok (st2, pid2, cs)) :
    ∃ c P, pid2 = some c ∧ findExistingPage st2 seg pid = some P ∧ P.id = c := by
  unfold folderStep at h
  cases h1 : findExistingPage st seg pid with
  | some p =>
    rw [h1] at h
    simp only [Except.ok.injEq, Prod.mk.injEq] at h
    obtain ⟨h2, h3, -⟩ := h
    exact ⟨p.id, p, h3.symm, h2 ▸ h1, rfl⟩
  | none =>
    rw [h1] at h
    cases h2 : findExistingPage st seg none with
    | some anyP =>
      rw [h2] at h
      simp only [Except.ok.injEq, Prod.mk.injEq] at h
      obtain ⟨hst, hpid, -⟩ := h
      cases pid with
      | none =>
        rw [h1] at h2
        cases h2
      | some p =>
        have hmem := findExistingPage_mem st seg none anyP h2
        have hfound : st.pages.find? (activeTitled seg) = some anyP := by
          rw [← findExisting_none_eq]
          exact h2
        have hfind2 : findExistingPage
            ((updatePage st anyP.id seg folderBoiler anyP.version (some p)).1) seg (some p)
            = some (applyUpdate anyP seg folderBoiler (anyP.version + 1) (some p)) := by
          rw [findExisting_some_eq]
          exact find?_update_of_find? (activeTitled seg)
            (fun r => activeTitled seg r && r.parent = some p) st.pages anyP
            (fun x => applyUpdate x seg folderBoiler (anyP.version + 1) (some p))
            hwf.1 hfound (fun x _ hx => by simp [hx])
            (by simp [activeTitled, applyUpdate, hmem.2.2])
        refine ⟨anyP.id, applyUpdate anyP seg folderBoiler (anyP.version + 1) (some p),
          ?_, hst ▸ hfind2, rfl⟩
        rw [← hpid, updatePage_snd_id]
    | none =>
      rw [h2] at h
      cases h3 : findArchivedPage st seg with
      | some ap =>
        rw [h3] at h
        cases h
      | none =>
        rw [h3] at h
        simp only [Except.ok.injEq, Prod.mk.injEq] at h
        obtain ⟨hst, hpid, -⟩ := h
        have hnone : st.pages.find? (activeTitled seg) = none := by
          rw [← findExisting_none_eq]
          exact h2
        refine ⟨st.nextId, ⟨st.nextId, seg, folderBoiler, 1, pid, false⟩, ?_, ?_, rfl⟩
        · rw [← hpid]
          rfl
        · rw [← hst]
          cases pid with
          | none =>
            rw [findExisting_none_eq]
            show (st.pages ++ [(⟨st.nextId, seg, folderBoiler, 1, none, false⟩ : RPage)]).find?
              (activeTitled seg) = _
            rw [List.find?_append, hnone]
            simp [activeTitled]
          | some p =>
            rw [findExisting_some_eq]
            show (st.pages ++ [(⟨st.nextId, seg, folderBoiler, 1, some p, false⟩ : RPage)]).find?
              (fun r => activeTitled seg r && r.parent = some p) = _
            rw [List.find?_append]
            rw [List.find?_eq_none.mpr (fun x hx hpx => by
              have := List.find?_eq_none.mp hnone x hx
              rw [Bool.and_eq_true] at hpx
              exact this hpx.1)]
            simp [activeTitled]

/-- Updating a found page preserves well-formedness and evolves the state
within the shape discipline for that page's title. -/
theorem updateEvolve (st : Remote) (q : RPage) (hq : q ∈ st.pages)
    (hwf : WFRemote st) (t b : String) (cv : Nat) (par : Option Nat)
    (htq : q.title = t)
    (hpar : match par with | some pp => q.parent = some pp ∨ True | none => True) :
    presOutside [t] st (updatePage st q.id t b cv par).1 ∧
      WFRemote (updatePage st q.id t b cv par).1 := by
  have hid : ∀ x ∈ st.pages,
      ((if x.id = q.id then applyUpdate x t b (cv + 1) par else x) : RPage).id = x.id := by
    intro x _
    by_cases hx : x.id = q.id
    · rw [if_pos hx, applyUpdate_id]
    · rw [if_neg hx]
  constructor
  · refine ⟨st.pages.map (fun x => if x.id = q.id then applyUpdate x t b (cv + 1) par else x),
      [], (List.append_nil _).symm, ?_⟩
    rw [List.forall₂_map_right_iff]
    refine List.forall₂_same.mpr (fun x hx => ?_)
    by_cases hxq : x.id = q.id
    · have hxq2 : x = q := eq_of_mem_id st.pages hwf.1 x q hx hq hxq
      subst hxq2
      rw [if_pos hxq]
      exact ⟨rfl, htq.symm, rfl, fun hni => absurd (htq ▸ List.mem_cons_self t [])
        (by rw [← htq] at hni; exact hni)⟩
    · rw [if_neg hxq]
      exact ⟨rfl, rfl, rfl, fun _ => rfl⟩
  · constructor
    · show (List.map RPage.id (st.pages.map
        (fun x => if x.id = q.id then applyUpdate x t b (cv + 1) par else x))).Nodup
      rw [List.map_map]
      have h2 : st.pages.map (RPage.id ∘
          (fun x => if x.id = q.id then applyUpdate x t b (cv + 1) par else x)) =
          st.pages.map RPage.id :=
        List.map_congr_left (fun x hx => hid x hx)
      rw [h2]
      exact hwf.1
    · intro x hx
      have hx2 : x ∈ st.pages.map
          (fun x => if x.id = q.id then applyUpdate x t b (cv + 1) par else x) := hx
      rw [List.mem_map] at hx2
      obtain ⟨y, hy, hxy⟩ := hx2
      show x.id < st.nextId
      rw [← hxy]
      rw [hid y hy]
      exact hwf.2 y hy

/-- Appending a fresh page preserves well-formedness. -/
theorem createWF (st : Remote) (t b : String) (par : Option Nat)
    (hwf : WFRemote st) : WFRemote (createPage st t b par).1 := by
  constructor
  · show (List.map RPage.id
      (st.pages ++ [(⟨st.nextId, t, b, 1, par, false⟩ : RPage)])).Nodup
    rw [List.map_append, List.nodup_append]
    refine ⟨hwf.1, List.nodup_singleton _, fun x hx => ?_⟩
    rw [List.mem_map] at hx
    obtain ⟨y, hy, hxy⟩ := hx
    simp only [List.map_cons, List.map_nil, List.mem_singleton]
    intro he
    have := hwf.2 y hy
    rw [← hxy] at he
    omega
  · intro x hx
    have hx2 : x ∈ st.pages ++ [(⟨st.nextId, t, b, 1, par, false⟩ : RPage)] := hx
    rw [List.mem_append] at hx2
    show x.id < st.nextId + 1
    cases hx2 with
    | inl hx3 =>
      have := hwf.2 x hx3
      omega
    | inr hx3 =>
      simp only [List.mem_singleton] at hx3
      rw [hx3]
      show st.nextId < st.nextId + 1
      omega

/-- A successful folder step evolves the state within the shape discipline
for its segment title and preserves well-formedness. -/
theorem stepEvolve (d sp : String) (st : Remote) (pid : Option Nat) (seg : String)
    (hwf : WFRemote st) (st2 : Remote) (pid2 : Option Nat) (cs : List SyncCall)
    (h : folderStep d sp st pid seg = .ok (st2, pid2, cs)) :
    presOutside [seg] st st2 ∧ WFRemote st2 := by
  unfold folderStep at h
  cases h1 : findExistingPage st seg pid with
  | some p =>
    rw [h1] at h
    simp only [Except.ok.injEq, Prod.mk.injEq] at h
    rw [← h.1]
    exact ⟨presOutside_refl [seg] st, hwf⟩
  | none =>
    rw [h1] at h
    cases h2 : findExistingPage st seg none with
    | some anyP =>
      rw [h2] at h
      simp only [Except.ok.injEq, Prod.mk.injEq] at h
      rw [← h.1]
      have hmem := findExistingPage_mem st seg none anyP h2
      exact updateEvolve st anyP hmem.1 hwf seg folderBoiler anyP.version pid hmem.2.1
        (by cases pid <;> simp)
    | none =>
      rw [h2] at h
      cases h3 : findArchivedPage st seg with
      | some ap =>
        rw [h3] at h
        cases h
      | none =>
        rw [h3] at h
        simp only [Except.ok.injEq, Prod.mk.injEq] at h
        rw [← h.1]
        refine ⟨?_, createWF st seg folderBoiler pid hwf⟩
        exact ⟨st.pages, [(⟨st.nextId, seg, folderBoiler, 1, pid, false⟩ : RPage)], rfl,
          List.forall₂_same.mpr (fun x _ => ⟨rfl, rfl, rfl, fun _ => rfl⟩)⟩

/-- The folder loop evolves the state within the shape discipline for the
processed segment titles and preserves well-formedness. -/
theorem foldEvolve (d sp : String) : ∀ (segs : List String) (st : Remote)
    (pid : Option Nat) (st1 : Remote) (pid1 : Option Nat) (cs : List SyncCall),
    WFRemote st → foldersGo d sp st pid segs = .ok (st1, pid1, cs) →
    presOutside segs st st1 ∧ WFRemote st1 := by
  intro segs
  induction segs with
  | nil =>
    intro st pid st1 pid1 cs hwf h
    unfold foldersGo at h
    simp only [Except.ok.injEq, Prod.mk.injEq] at h
    rw [← h.1]
    exact ⟨presOutside_refl [] st, hwf⟩
  | cons seg rest ih =>
    intro st pid st1 pid1 cs hwf h
    unfold foldersGo at h
    cases hs : folderStep d sp st pid seg with
    | error e =>
      rw [hs] at h
      cases h
    | ok tri =>
      obtain ⟨stA, pidA, csA⟩ := tri
      simp only [hs] at h
      cases hr : foldersGo d sp stA pidA rest with
      | error e =>
        simp only [hr] at h
        exact absurd h (by simp)
      | ok tri2 =>
        obtain ⟨stB, pidB, csR⟩ := tri2
        simp only [hr, Except.ok.injEq, Prod.mk.injEq] at h
        obtain ⟨hstB, -, -⟩ := h
        obtain ⟨hpoA, hwfA⟩ := stepEvolve d sp st pid seg hwf stA pidA csA hs
        obtain ⟨hpoR, hwfR⟩ := ih stA pidA stB pidB csR hwfA hr
        rw [← hstB]
        exact ⟨presOutside_trans [seg] rest st stA stB hpoA hpoR, hwfR⟩

/-- Replaying one folder step on any state that protects the pages of the
segment's title finds the page the original step descended into, with no
further call and no state change. -/
theorem stepReplay (d sp : String) (st : Remote) (pid : Option Nat) (seg : String)
    (hwf : WFRemote st) (st2 : Remote) (pid2 : Option Nat) (cs : List SyncCall)
    (h : folderStep d sp st pid seg = .ok (st2, pid2, cs))
    (T : List String) (hT : seg ∉ T) (stF : Remote)
    (hpo : presOutside T st2 stF) :
    folderStep d sp stF pid seg = .ok (stF, pid2, []) := by
  obtain ⟨c, P, hpid2, hfind, hPid⟩ := stepFound d sp st pid seg hwf st2 pid2 cs h
  obtain ⟨Q, hQ, hQid⟩ := findStable T st2 stF hpo seg hT pid P hfind
  unfold folderStep
  simp only [hQ]
  rw [hQid, hPid, hpid2]

/-- Replaying the whole folder loop on the final state of a run (evolved
only by parent-preserving operations) follows the same chain with no calls
and no state change. -/
theorem foldReplay (d sp : String) : ∀ (segs : List String) (st : Remote)
    (pid : Option Nat) (st1 : Remote) (pid1 : Option Nat) (cs : List SyncCall)
    (stF : Remote), segs.Nodup → WFRemote st →
    foldersGo d sp st pid segs = .ok (st1, pid1, cs) →
    presOutside [] st1 stF →
    foldersGo d sp stF pid segs = .ok (stF, pid1, []) := by
  intro segs
  induction segs with
  | nil =>
    intro st pid st1 pid1 cs stF _ _ h _
    unfold foldersGo at h
    simp only [Except.ok.injEq, Prod.mk.injEq] at h
    rw [← h.2.1]
    rfl
  | cons seg rest ih =>
    intro st pid st1 pid1 cs stF hnd hwf h hpo
    rw [List.nodup_cons] at hnd
    unfold foldersGo at h
    cases hs : folderStep d sp st pid seg with
    | error e =>
      rw [hs] at h
      cases h
    | ok tri =>
      obtain ⟨stA, pidA, csA⟩ := tri
      simp only [hs] at h
      cases hr : foldersGo d sp stA pidA rest with
      | error e =>
        simp only [hr] at h
        exact absurd h (by simp)
      | ok tri2 =>
        obtain ⟨stB, pidB, csR⟩ := tri2
        simp only [hr, Except.ok.injEq, Prod.mk.injEq] at h
        obtain ⟨hstB, hpidB, -⟩ := h
        obtain ⟨hpoA, hwfA⟩ := stepEvolve d sp st pid seg hwf stA pidA csA hs
        obtain ⟨hpoR, hwfR⟩ := foldEvolve d sp rest stA pidA stB pidB csR hwfA hr
        have hpoC : presOutside rest stA stF := by
          have := presOutside_trans rest [] stA stB stF hpoR (hstB ▸ hpo)
          exact presOutside_mono (rest ++ []) rest
            (fun x hx => by simpa using hx) stA stF this
        have hstep := stepReplay d sp st pid seg hwf stA pidA csA hs rest hnd.1 stF hpoC
        have hrest := ih stA pidA stB pidB csR stF hnd.2 hwfA hr (hstB ▸ hpo)
        unfold foldersGo
        simp only [hstep, hrest, hpidB]
        rfl

/-- The version number carried by the page object `updatePage` returns. -/
theorem updatePage_snd_version (st : Remote) (pid : Nat) (t b : String) (cv : Nat)
    (par : Option Nat) : (updatePage st pid t b cv par).2.version = cv + 1 := by
  unfold updatePage
  cases h : st.pages.find? (fun p => p.id = pid) <;> rfl

/-- The leaf update: the returned page object, the stability of the lookup,
the parent-preserving evolution, and well-formedness. -/
theorem leafUpdateFacts (st : Remote) (title C : String) (pidA : Option Nat)
    (hwf : WFRemote st) (ex : RPage)
    (hfind : findExistingPage st title pidA = some ex) :
    (updatePage st ex.id title C ex.version pidA).2
        = applyUpdate ex title C (ex.version + 1) pidA ∧
    findExistingPage (updatePage st ex.id title C ex.version pidA).1 title pidA
        = some (applyUpdate ex title C (ex.version + 1) pidA) ∧
    presOutside [] st (updatePage st ex.id title C ex.version pidA).1 ∧
    WFRemote (updatePage st ex.id title C ex.version pidA).1 := by
  have hmem := findExistingPage_mem st title pidA ex hfind
  have hself := find?_id_self st.pages ex hmem.1 hwf.1
  have hsnd : (updatePage st ex.id title C ex.version pidA).2
      = applyUpdate ex title C (ex.version + 1) pidA := by
    unfold updatePage
    rw [hself]
  have hshape : pageShape [] ex (applyUpdate ex title C (ex.version + 1) pidA) := by
    refine ⟨rfl, hmem.2.1.symm, rfl, fun _ => ?_⟩
    cases hpa : pidA with
    | none => rfl
    | some p =>
      rw [hpa] at hfind
      rw [findExisting_some_eq] at hfind
      have := List.find?_some hfind
      rw [Bool.and_eq_true] at this
      have hpar : ex.parent = some p := by simpa using this.2
      show some p = ex.parent
      exact hpar.symm
  have hidm : ∀ x ∈ st.pages,
      ((if x.id = ex.id then applyUpdate x title C (ex.version + 1) pidA else x) : RPage).id
        = x.id := by
    intro x _
    by_cases hx : x.id = ex.id
    · rw [if_pos hx, applyUpdate_id]
    · rw [if_neg hx]
  refine ⟨hsnd, ?_, ?_, ?_⟩
  · cases hpa : pidA with
    | none =>
      rw [findExisting_none_eq]
      have hfound : st.pages.find? (activeTitled title) = some ex := by
        rw [← findExisting_none_eq]
        rw [hpa] at hfind
        exact hfind
      exact find?_update_of_find? (activeTitled title) (activeTitled title) st.pages ex
        (fun x => applyUpdate x title C (ex.version + 1) none)
        hwf.1 hfound (fun x _ hx => hx)
        (by simp [activeTitled, applyUpdate, hmem.2.2])
    | some p =>
      rw [findExisting_some_eq]
      have hfound : st.pages.find?
          (fun r => activeTitled title r && r.parent = some p) = some ex := by
        rw [← findExisting_some_eq]
        rw [hpa] at hfind
        exact hfind
      exact find?_update_of_find? _ _ st.pages ex
        (fun x => applyUpdate x title C (ex.version + 1) (some p))
        hwf.1 hfound (fun x _ hx => hx)
        (by simp [activeTitled, applyUpdate, hmem.2.2])
  · refine ⟨st.pages.map
      (fun x => if x.id = ex.id then applyUpdate x title C (ex.version + 1) pidA else x),
      [], (List.append_nil _).symm, ?_⟩
    rw [List.forall₂_map_right_iff]
    refine List.forall₂_same.mpr (fun x hx => ?_)
    by_cases hxq : x.id = ex.id
    · have hxq2 : x = ex := eq_of_mem_id st.pages hwf.1 x ex hx hmem.1 hxq
      subst hxq2
      rw [if_pos hxq]
      exact hshape
    · rw [if_neg hxq]
      exact ⟨rfl, rfl, rfl, fun _ => rfl⟩
  · constructor
    · show (List.map RPage.id (st.pages.map
        (fun x => if x.id = ex.id then applyUpdate x title C (ex.version + 1) pidA else x))).Nodup
      rw [List.map_map]
      have h2 : st.pages.map (RPage.id ∘
          (fun x => if x.id = ex.id then applyUpdate x title C (ex.version + 1) pidA else x)) =
          st.pages.map RPage.id :=
        List.map_congr_left (fun x hx => hidm x hx)
      rw [h2]
      exact hwf.1
    · intro x hx
      have hx2 : x ∈ st.pages.map
          (fun x => if x.id = ex.id then applyUpdate x title C (ex.version + 1) pidA else x) := hx
      rw [List.mem_map] at hx2
      obtain ⟨y, hy, hxy⟩ := hx2
      show x.id < st.nextId
      rw [← hxy, hidm y hy]
      exact hwf.2 y hy

/-- The leaf create: the stability of the lookup, the pure extension of the
state, and well-formedness. -/
theorem leafCreateFacts (st : Remote) (title C : String) (pidA : Option Nat)
    (hwf : WFRemote st) (hfind : findExistingPage st title pidA = none) :
    findExistingPage (createPage st title C pidA).1 title pidA
        = some (createPage st title C pidA).2 ∧
    presOutside [] st (createPage st title C pidA).1 ∧
    WFRemote (createPage st title C pidA).1 := by
  refine ⟨?_, ?_, createWF st title C pidA hwf⟩
  · cases hpa : pidA with
    | none =>
      rw [hpa] at hfind
      rw [findExisting_none_eq] at hfind ⊢
      show (st.pages ++ [(⟨st.nextId, title, C, 1, none, false⟩ : RPage)]).find?
        (activeTitled title) = _
      rw [List.find?_append, hfind]
      simp [activeTitled, createPage]
    | some p =>
      rw [hpa] at hfind
      rw [findExisting_some_eq] at hfind ⊢
      show (st.pages ++ [(⟨st.nextId, title, C, 1, some p, false⟩ : RPage)]).find?
        (fun r => activeTitled title r && r.parent = some p) = _
      rw [List.find?_append, hfind]
      simp [activeTitled, createPage]
  · exact ⟨st.pages, [(⟨st.nextId, title, C, 1, pidA, false⟩ : RPage)], rfl,
      List.forall₂_same.mpr (fun x _ => ⟨rfl, rfl, rfl, fun _ => rfl⟩)⟩

/-- Unfolding of `uploadToConfluence` for a document without mermaid blocks or
image embeds: the placeholder phase is skipped, the run is the folder chain
followed by the leaf upsert. -/
theorem uploadNoPh (env : SyncEnv) (domain spaceKey : String) (st : Remote)
    (title md : String) (segs : List String)
    (hnb : (extractMermaid md).2 = [])
    (hni : (extractImages (extractMermaid md).1).2 = []) :
    uploadToConfluence env domain spaceKey st title md segs =
      match foldersGo domain spaceKey st none segs with
      | .error e => .error e
      | .ok (stm, parentId, calls1) =>
        match findExistingPage stm title parentId with
        | some ex =>
          .ok ((updatePage stm ex.id title
              (convertMarkdownToConfluence (extractImages (extractMermaid md).1).1)
              ex.version parentId).1,
            (updatePage stm ex.id title
              (convertMarkdownToConfluence (extractImages (extractMermaid md).1).1)
              ex.version parentId).2,
            calls1 ++ [SyncCall.updateCall ex.id title
              (convertMarkdownToConfluence (extractImages (extractMermaid md).1).1)
              (ex.version + 1) parentId])
        | none =>
          .ok ((createPage stm title
              (convertMarkdownToConfluence (extractImages (extractMermaid md).1).1)
              parentId).1,
            (createPage stm title
              (convertMarkdownToConfluence (extractImages (extractMermaid md).1).1)
              parentId).2,
            calls1 ++ [SyncCall.createCall title
              (convertMarkdownToConfluence (extractImages (extractMermaid md).1).1)
              parentId]) := by
  have hif : (if segs.isEmpty then
      (Except.ok (st, none, []) : Except String (Remote × Option Nat × List SyncCall))
      else ensureFolderHierarchy domain spaceKey st segs)
      = foldersGo domain spaceKey st none segs := by
    cases segs with
    | nil => rfl
    | cons a l => rfl
  simp only [uploadToConfluence, hif, hnb, hni, List.isEmpty_nil, Bool.and_self, if_true]
  cases hres : foldersGo domain spaceKey st none segs with
  | error e => rfl
  | ok tri =>
    obtain ⟨stm, parentId, calls1⟩ := tri
    cases hfe : findExistingPage stm title parentId with
    | some ex => simp only [hfe]
    | none => simp only [hfe]

/-- C1 (counterexample): the second synchronization run is not in general a
single update. A document holding one mermaid diagram makes the second run
issue two update calls (the leaf upsert and the unconditional final
placeholder-resolution update), and a folder path with a repeated segment
makes it issue three (the repeated title is re-parented back and forth on
every run). -/
theorem C1_second_run_counterexample :
    runUpdates (rerun envAll "d" "s" emptyRemote "Doc" "```mermaid\nA\n```" []) = 2 ∧
    runUpdates (rerun envAll "d" "s" emptyRemote "Doc" "hello" ["X", "A", "Y", "A"]) = 3 := by
  constructor
  · decide
  · decide

/-- C1 (amended): for a document without mermaid or image placeholders and a
folder path without repeated segments, a successful run against a well-formed
remote makes a second run of the synchronization converge: it creates no page,
issues exactly one call — an update of the same leaf page id with
version = firstRunVersion + 1 — and the page object it returns carries that
id and version. -/
theorem C1_second_run_single_update
    (env : SyncEnv) (domain spaceKey : String) (st0 : Remote)
    (title md : String) (segs : List String)
    (hwf : WFRemote st0) (hnd : segs.Nodup)
    (hnb : (extractMermaid md).2 = [])
    (hni : (extractImages (extractMermaid md).1).2 = [])
    (st1 : Remote) (p1 : RPage) (cs1 : List SyncCall)
    (hrun : uploadToConfluence env domain spaceKey st0 title md segs
      = .ok (st1, p1, cs1)) :
    ∃ (st2 : Remote) (p2 : RPage) (pid : Option Nat),
      uploadToConfluence env domain spaceKey st1 title md segs
        = .ok (st2, p2, [SyncCall.updateCall p1.id title
            (convertMarkdownToConfluence (extractImages (extractMermaid md).1).1)
            (p1.version + 1) pid]) ∧
      p2.id = p1.id ∧ p2.version = p1.version + 1 := by
  rw [uploadNoPh env domain spaceKey st0 title md segs hnb hni] at hrun
  cases hfold : foldersGo domain spaceKey st0 none segs with
  | error e =>
    rw [hfold] at hrun
    cases hrun
  | ok tri =>
    obtain ⟨stA, pidA, csA⟩ := tri
    rw [hfold] at hrun
    obtain ⟨-, hwfA⟩ := foldEvolve domain spaceKey segs st0 none stA pidA csA hwf hfold
    have hcore : findExistingPage st1 title pidA = some p1 ∧
        presOutside [] stA st1 ∧ WFRemote st1 := by
      cases hleaf : findExistingPage stA title pidA with
      | some ex =>
        simp only [hleaf, Except.ok.injEq, Prod.mk.injEq] at hrun
        obtain ⟨hst1, hp1, -⟩ := hrun
        obtain ⟨hsnd, hfind1, hpo1, hwf1⟩ := leafUpdateFacts stA title
          (convertMarkdownToConfluence (extractImages (extractMermaid md).1).1)
          pidA hwfA ex hleaf
        have hap : applyUpdate ex title
            (convertMarkdownToConfluence (extractImages (extractMermaid md).1).1)
            (ex.version + 1) pidA = p1 := hsnd.symm.trans hp1
        refine ⟨?_, hst1 ▸ hpo1, hst1 ▸ hwf1⟩
        rw [← hst1, hfind1, hap]
      | none =>
        simp only [hleaf, Except.ok.injEq, Prod.mk.injEq] at hrun
        obtain ⟨hst1, hp1, -⟩ := hrun
        obtain ⟨hfind1, hpo1, hwf1⟩ := leafCreateFacts stA title
          (convertMarkdownToConfluence (extractImages (extractMermaid md).1).1)
          pidA hwfA hleaf
        refine ⟨?_, hst1 ▸ hpo1, hst1 ▸ hwf1⟩
        rw [← hst1, hfind1, hp1]
    obtain ⟨hfindF, hpoF, hwfF⟩ := hcore
    have hreplay := foldReplay domain spaceKey segs st0 none stA pidA csA st1 hnd hwf hfold hpoF
    refine ⟨(updatePage st1 p1.id title
        (convertMarkdownToConfluence (extractImages (extractMermaid md).1).1)
        p1.version pidA).1,
      (updatePage st1 p1.id title
        (convertMarkdownToConfluence (extractImages (extractMermaid md).1).1)
        p1.version pidA).2, pidA, ?_, ?_, ?_⟩
    · rw [uploadNoPh env domain spaceKey st1 title md segs hnb hni, hreplay]
      simp only [hfindF, List.nil_append]
    · exact updatePage_snd_id st1 p1.id title
        (convertMarkdownToConfluence (extractImages (extractMermaid md).1).1)
        p1.version pidA
    · exact updatePage_snd_version st1 p1.id title
        (convertMarkdownToConfluence (extractImages (extractMermaid md).1).1)
        p1.version pidA

/-- C1 (witness): the amended idempotence theorem on a concrete clean run —
empty space, folder path with the single segment Tech, document hello. -/
theorem C1_second_run_single_update_witness :
    WFRemote emptyRemote ∧ (["Tech"] : List String).Nodup ∧
    (extractMermaid "hello").2 = [] ∧
    (extractImages (extractMermaid "hello").1).2 = [] ∧
    uploadToConfluence envAll "d" "s" emptyRemote "Doc" "hello" ["Tech"] =
      .ok (⟨[⟨0, "Tech", folderBoiler, 1, none, false⟩,
             ⟨1, "Doc", "hello</p>", 1, some 0, false⟩], 2⟩,
           ⟨1, "Doc", "hello</p>", 1, some 0, false⟩,
           [SyncCall.createCall "Tech" folderBoiler none,
            SyncCall.createCall "Doc" "hello</p>" (some 0)]) ∧
    (∃ (st2 : Remote) (p2 : RPage) (pid : Option Nat),
      uploadToConfluence envAll "d" "s"
          ⟨[⟨0, "Tech", folderBoiler, 1, none, false⟩,
            ⟨1, "Doc", "hello</p>", 1, some 0, false⟩], 2⟩ "Doc" "hello" ["Tech"]
        = .ok (st2, p2, [SyncCall.updateCall
            (⟨1, "Doc", "hello</p>", 1, some 0, false⟩ : RPage).id "Doc"
            (convertMarkdownToConfluence (extractImages (extractMermaid "hello").1).1)
            ((⟨1, "Doc", "hello</p>", 1, some 0, false⟩ : RPage).version + 1) pid]) ∧
      p2.id = (⟨1, "Doc", "hello</p>", 1, some 0, false⟩ : RPage).id ∧
      p2.version = (⟨1, "Doc", "hello</p>", 1, some 0, false⟩ : RPage).version + 1) :=
  ⟨⟨by decide, by decide⟩, by decide, by decide, by decide, by decide,
    C1_second_run_single_update envAll "d" "s" emptyRemote "Doc" "hello" ["Tech"]
      ⟨by decide, by decide⟩ (by decide) (by decide) (by decide)
      (⟨[⟨0, "Tech", folderBoiler, 1, none, false⟩,
         ⟨1, "Doc", "hello</p>", 1, some 0, false⟩], 2⟩ : Remote)
      (⟨1, "Doc", "hello</p>", 1, some 0, false⟩ : RPage)
      [SyncCall.createCall "Tech" folderBoiler none,
       SyncCall.createCall "Doc" "hello</p>" (some 0)]
      (by decide)⟩

/-- C3 (amended): whenever the document contains at least one mermaid block
or at least one image embed (so the transcoded body holds a placeholder of
either kind), any successful run ends with the final body-rewriting update
call on the leaf page — submitted at the leaf version plus one — whether or
not any placeholder was resolved. -/
theorem C3_final_update_always (env : SyncEnv) (domain spaceKey : String)
    (st : Remote) (title md : String) (segs : List String)
    (hnbi : (extractMermaid md).2 ≠ [] ∨ (extractImages (extractMermaid md).1).2 ≠ [])
    (st2 : Remote) (p2 : RPage) (cs2 : List SyncCall)
    (hrun : uploadToConfluence env domain spaceKey st title md segs
      = .ok (st2, p2, cs2)) :
    ∃ (body : String) (pid : Option Nat),
      cs2.getLast? = some (SyncCall.updateCall p2.id title body (p2.version + 1) pid) := by
  have hif : (if segs.isEmpty then
      (Except.ok (st, none, []) : Except String (Remote × Option Nat × List SyncCall))
      else ensureFolderHierarchy domain spaceKey st segs)
      = foldersGo domain spaceKey st none segs := by
    cases segs with
    | nil => rfl
    | cons a l => rfl
  have hcond : ((extractMermaid md).2.isEmpty &&
      (extractImages (extractMermaid md).1).2.isEmpty) = false := by
    cases hnbi with
    | inl h =>
      cases hb : (extractMermaid md).2 with
      | nil => exact absurd hb h
      | cons b bs => rfl
    | inr h =>
      cases hb : (extractImages (extractMermaid md).1).2 with
      | nil => exact absurd hb h
      | cons b bs => exact Bool.and_false _
  simp only [uploadToConfluence, hif, hcond, Bool.false_eq_true, if_false] at hrun
  cases hres : foldersGo domain spaceKey st none segs with
  | error e =>
    rw [hres] at hrun
    cases hrun
  | ok tri =>
    obtain ⟨stA, pidA, csA⟩ := tri
    rw [hres] at hrun
    simp only [Except.ok.injEq, Prod.mk.injEq] at hrun
    obtain ⟨-, hp2, hcs2⟩ := hrun
    subst hcs2
    subst hp2
    exact ⟨_, _, List.getLast?_concat _⟩

/-- C3 (witness): the amended final-update theorem on two concrete runs —
one whose only placeholder is a mermaid diagram that fails to render, and one
whose only placeholder is an image embed: either way the trace ends in the
final update. -/
theorem C3_final_update_always_witness :
    ((extractMermaid "```mermaid\nA\n```").2 ≠ [] ∨
      (extractImages (extractMermaid "```mermaid\nA\n```").1).2 ≠ []) ∧
    uploadToConfluence (envFailR "A") "d" "s" emptyRemote "Doc" "```mermaid\nA\n```" [] =
      .ok (⟨[⟨0, "Doc", "!MERMAID-PLACEHOLDER-0.svg</p>", 2, none, false⟩], 1⟩,
        ⟨0, "Doc", "!MERMAID-PLACEHOLDER-0.svg</p>", 1, none, false⟩,
        [SyncCall.createCall "Doc" "!MERMAID-PLACEHOLDER-0.svg</p>" none,
         SyncCall.updateCall 0 "Doc" "!MERMAID-PLACEHOLDER-0.svg</p>" 2 none]) ∧
    (∃ (body : String) (pid : Option Nat),
      ([SyncCall.createCall "Doc" "!MERMAID-PLACEHOLDER-0.svg</p>" none,
        SyncCall.updateCall 0 "Doc" "!MERMAID-PLACEHOLDER-0.svg</p>" 2 none] :
          List SyncCall).getLast?
        = some (SyncCall.updateCall
            (⟨0, "Doc", "!MERMAID-PLACEHOLDER-0.svg</p>", 1, none, false⟩ : RPage).id
            "Doc" body
            ((⟨0, "Doc", "!MERMAID-PLACEHOLDER-0.svg</p>", 1, none, false⟩ : RPage).version + 1)
            pid)) ∧
    ((extractMermaid "![[a.png]]").2 ≠ [] ∨
      (extractImages (extractMermaid "![[a.png]]").1).2 ≠ []) ∧
    uploadToConfluence envAll "d" "s" emptyRemote "Doc" "![[a.png]]" [] =
      .ok (⟨[⟨0, "Doc",
          "<ac:image ac:width=\"500\"><ri:attachment ri:filename=\"a.png\" /></ac:image>",
          2, none, false⟩], 1⟩,
        ⟨0, "Doc", "IMAGE-ATTACHMENT-0</p>", 1, none, false⟩,
        [SyncCall.createCall "Doc" "IMAGE-ATTACHMENT-0</p>" none,
         SyncCall.uploadCall 0 "a.png",
         SyncCall.updateCall 0 "Doc"
           "<ac:image ac:width=\"500\"><ri:attachment ri:filename=\"a.png\" /></ac:image>"
           2 none]) ∧
    (∃ (body : String) (pid : Option Nat),
      ([SyncCall.createCall "Doc" "IMAGE-ATTACHMENT-0</p>" none,
        SyncCall.uploadCall 0 "a.png",
        SyncCall.updateCall 0 "Doc"
          "<ac:image ac:width=\"500\"><ri:attachment ri:filename=\"a.png\" /></ac:image>"
          2 none] : List SyncCall).getLast?
        = some (SyncCall.updateCall
            (⟨0, "Doc", "IMAGE-ATTACHMENT-0</p>", 1, none, false⟩ : RPage).id
            "Doc" body
            ((⟨0, "Doc", "IMAGE-ATTACHMENT-0</p>", 1, none, false⟩ : RPage).version + 1)
            pid)) :=
  ⟨by decide, by decide,
    C3_final_update_always (envFailR "A") "d" "s" emptyRemote "Doc" "```mermaid\nA\n```" []
      (by decide)
      (⟨[⟨0, "Doc", "!MERMAID-PLACEHOLDER-0.svg</p>", 2, none, false⟩], 1⟩ : Remote)
      (⟨0, "Doc", "!MERMAID-PLACEHOLDER-0.svg</p>", 1, none, false⟩ : RPage)
      [SyncCall.createCall "Doc" "!MERMAID-PLACEHOLDER-0.svg</p>" none,
       SyncCall.updateCall 0 "Doc" "!MERMAID-PLACEHOLDER-0.svg</p>" 2 none]
      (by decide),
    by decide, by decide,
    C3_final_update_always envAll "d" "s" emptyRemote "Doc" "![[a.png]]" []
      (by decide)
      (⟨[⟨0, "Doc",
          "<ac:image ac:width=\"500\"><ri:attachment ri:filename=\"a.png\" /></ac:image>",
          2, none, false⟩], 1⟩ : Remote)
      (⟨0, "Doc", "IMAGE-ATTACHMENT-0</p>", 1, none, false⟩ : RPage)
      [SyncCall.createCall "Doc" "IMAGE-ATTACHMENT-0</p>" none,
       SyncCall.uploadCall 0 "a.png",
       SyncCall.updateCall 0 "Doc"
         "<ac:image ac:width=\"500\"><ri:attachment ri:filename=\"a.png\" /></ac:image>"
         2 none]
      (by decide)⟩

end CSync
